import Mathlib

/-!
Shallow embedding of the PoS-Website order/stock/cost core.

Sources embedded here:
* `src/models/Ingredient.js` (and the parallel pg implementation) — ingredient store
* `src/models/Recipe.js` — recipe index (joined views)
* `src/models/Order.js` — order rows, items, revisions
* `src/models/Product.js` — product rows, `updateCostPrice`
* `src/services/stockManager.js` — check / deduct / return / manual adjust
* `src/services/orderService.js` — order lifecycle
* `src/services/costCalculator.js` — recipe-driven cost calculation

Database rows are lists of structures; numeric columns (DECIMAL) are `ℚ`.
Async persistence calls become explicit state passing; thrown `ApiError`s
become `Except ApiErr`.  The `users` table and its joins are outside the
core (auth is excluded from the spec scope) and are elided.
-/

namespace PoS

/-- Row of the `ingredients` table. -/
structure Ingredient where
  id : Nat
  name : String
  unit : String
  stock_quantity : ℚ
  min_stock_threshold : ℚ
  unit_price : ℚ
  deriving Repr, DecidableEq

/-- Row of the `products` table. -/
structure Product where
  id : Nat
  name : String
  selling_price : ℚ
  cost_price : ℚ
  is_available : Bool
  deriving Repr, DecidableEq

/-- Row of the `recipes` table: `(product, ingredient, quantity_needed)`. -/
structure RecipeRow where
  product_id : Nat
  ingredient_id : Nat
  quantity_needed : ℚ
  deriving Repr, DecidableEq

/-- Row of the `stock_movements` ledger table. -/
structure StockMovement where
  ingredient_id : Nat
  movement_type : String
  quantity : ℚ
  reference_type : String
  reference_id : Option Nat
  notes : String
  deriving Repr, DecidableEq

/-- The four order states of the lifecycle state machine. -/
inductive OrderStatus where
  | pending
  | processing
  | completed
  | cancelled
  deriving Repr, DecidableEq

/-- Row of the `order_items` table (with the price frozen at order time). -/
structure OrderItem where
  product_id : Nat
  product_name : String
  quantity : ℚ
  unit_price : ℚ
  deriving Repr, DecidableEq

/-- Row of the `orders` table together with its items. -/
structure Order where
  id : Nat
  customer_id : Nat
  items : List OrderItem
  total_amount : ℚ
  status : OrderStatus
  notes : String
  deriving Repr, DecidableEq

/-- Row of the `order_revisions` audit table (value snapshots elided). -/
structure Revision where
  order_id : Nat
  revised_by : Nat
  revision_type : String
  notes : String
  deriving Repr, DecidableEq

/-- The persistent database state used by the core services. -/
structure DBState where
  ingredients : List Ingredient
  products : List Product
  recipes : List RecipeRow
  orders : List Order
  movements : List StockMovement
  revisions : List Revision
  nextOrderId : Nat
  deriving Repr, DecidableEq

/-- One entry of an `INSUFFICIENT_STOCK` error's itemized shortage list. -/
structure Shortage where
  ingredient_id : Nat
  ingredient_name : String
  unit : String
  required : ℚ
  available : ℚ
  shortage : ℚ
  deriving Repr, DecidableEq

/-- `ApiError` from `middlewares/errorHandler.js`: status code, message,
machine-readable code, and the `details.shortages` payload ([] when absent). -/
structure ApiErr where
  statusCode : Nat
  message : String
  code : String
  shortages : List Shortage
  deriving Repr, DecidableEq

/-- `ApiError.badRequest(message, code, details)`. -/
def ApiErr.badRequest (message : String) (code : String := "BAD_REQUEST")
    (shortages : List Shortage := []) : ApiErr :=
  ⟨400, message, code, shortages⟩

/-- `ApiError.notFound(message)`. -/
def ApiErr.notFound (message : String) : ApiErr :=
  ⟨404, message, "NOT_FOUND", []⟩

/-! ## Ingredient model (`models/Ingredient.js`, both backends) -/

/-- `Ingredient.findById`: first row with the given id. -/
def findIngredient (l : List Ingredient) (id : Nat) : Option Ingredient :=
  l.find? (fun i => i.id == id)

/-- `Ingredient.updateStock`: `UPDATE ingredients SET stock_quantity = q WHERE id = id`. -/
def updateStockList (l : List Ingredient) (id : Nat) (q : ℚ) : List Ingredient :=
  l.map (fun i => if i.id = id then { i with stock_quantity := q } else i)

namespace Ingredient

/-- `Ingredient.adjustStock` (supabase client, `src/models/Ingredient.js`):
reads the current row, then persists `Math.max(0, current + adjustment)`. -/
def adjustStock (s : DBState) (id : Nat) (adjustment : ℚ) : Except ApiErr DBState :=
  match findIngredient s.ingredients id with
  | none => .error (.notFound "Ingredient not found")
  | some current =>
      .ok { s with ingredients :=
              updateStockList s.ingredients id (max 0 (current.stock_quantity + adjustment)) }

/-- `Ingredient.adjustStock` from the parallel pg implementation of the
ingredient model: same read, same `Math.max(0, ...)` clamp, same write. -/
def adjustStockPg (s : DBState) (id : Nat) (adjustment : ℚ) : Except ApiErr DBState :=
  match findIngredient s.ingredients id with
  | none => .error (.notFound "Ingredient not found")
  | some current =>
      .ok { s with ingredients :=
              updateStockList s.ingredients id (max 0 (current.stock_quantity + adjustment)) }

end Ingredient

/-! ## Recipe model (`models/Recipe.js`) -/

/-- Result row of `Recipe.findByProductId`: recipe joined with its ingredient. -/
structure RecipeView where
  ingredient_id : Nat
  ingredient_name : String
  unit : String
  quantity_needed : ℚ
  unit_price : ℚ
  stock_quantity : ℚ
  deriving Repr, DecidableEq

namespace Recipe

/-- `Recipe.findByProductId`: recipes of the product joined with the
ingredient's name, unit, price and current stock. -/
def findByProductId (s : DBState) (pid : Nat) : List RecipeView :=
  (s.recipes.filter (fun r => r.product_id == pid)).filterMap (fun r =>
    (findIngredient s.ingredients r.ingredient_id).map (fun ing =>
      { ingredient_id := r.ingredient_id
        ingredient_name := ing.name
        unit := ing.unit
        quantity_needed := r.quantity_needed
        unit_price := ing.unit_price
        stock_quantity := ing.stock_quantity }))

/-- `Recipe.findByIngredientId`: recipe rows for the ingredient joined with
their product (`quantity_needed` together with the product row). -/
def findByIngredientId (s : DBState) (iid : Nat) : List (ℚ × Product) :=
  (s.recipes.filter (fun r => r.ingredient_id == iid)).filterMap (fun r =>
    (s.products.find? (fun p => p.id == r.product_id)).map (fun p =>
      (r.quantity_needed, p)))

end Recipe

/-! ## Stock Manager (`services/stockManager.js`) -/

/-- One entry of the aggregate ingredient requirements built by
`checkOrderStock`. -/
structure Requirement where
  ingredient_id : Nat
  ingredient_name : String
  unit : String
  quantity_needed : ℚ
  current_stock : ℚ
  deriving Repr, DecidableEq

namespace StockManager

/-- Inner step of `checkOrderStock`'s requirement collection: add one recipe
row of one order item; an ingredient already present gets its
`quantity_needed` bumped, a new one is pushed with the row's stock snapshot. -/
def addRequirement (reqs : List Requirement) (r : RecipeView) (itemQty : ℚ) :
    List Requirement :=
  let required := r.quantity_needed * itemQty
  if reqs.any (fun e => e.ingredient_id == r.ingredient_id) then
    reqs.map (fun e =>
      if e.ingredient_id = r.ingredient_id then
        { e with quantity_needed := e.quantity_needed + required }
      else e)
  else
    reqs ++ [{ ingredient_id := r.ingredient_id
               ingredient_name := r.ingredient_name
               unit := r.unit
               quantity_needed := required
               current_stock := r.stock_quantity }]

/-- Requirement collection loop of `checkOrderStock`: for each order item,
fold the product's recipe rows into the aggregate requirement list (a product
with no recipe contributes nothing and is skipped). -/
def collectRequirements (s : DBState) (items : List OrderItem) : List Requirement :=
  items.foldl (fun reqs item =>
    (Recipe.findByProductId s item.product_id).foldl
      (fun reqs r => addRequirement reqs r item.quantity) reqs) []

/-- Shortage extraction of `checkOrderStock`: requirements whose snapshot
stock is below the aggregate need, itemized as required/available/shortage. -/
def shortagesOf (reqs : List Requirement) : List Shortage :=
  (reqs.filter (fun req => req.current_stock < req.quantity_needed)).map (fun req =>
    { ingredient_id := req.ingredient_id
      ingredient_name := req.ingredient_name
      unit := req.unit
      required := req.quantity_needed
      available := req.current_stock
      shortage := req.quantity_needed - req.current_stock })

/-- Result of `checkOrderStock`. -/
structure CheckResult where
  canFulfill : Bool
  shortages : List Shortage
  requirements : List Requirement
  deriving Repr, DecidableEq

/-- `StockManager.checkOrderStock`: pure read computing aggregate
requirements and shortages; `canFulfill` iff no shortages. -/
def checkOrderStock (s : DBState) (items : List OrderItem) : CheckResult :=
  let reqs := collectRequirements s items
  let shorts := shortagesOf reqs
  { canFulfill := shorts.isEmpty, shortages := shorts, requirements := reqs }

/-- Ledger entry written by `deductOrderStock` for one aggregate requirement. -/
def deductMovement (orderId : Nat) (req : Requirement) : StockMovement :=
  { ingredient_id := req.ingredient_id
    movement_type := "out"
    quantity := -req.quantity_needed
    reference_type := "order"
    reference_id := some orderId
    notes := "Stock deducted for order" }

/-- Deduction loop of `deductOrderStock`: `Ingredient.adjustStock` with the
negated aggregate need, one requirement at a time. -/
def deductLoop (s : DBState) (reqs : List Requirement) : Except ApiErr DBState :=
  match reqs with
  | [] => .ok s
  | req :: rest =>
      match Ingredient.adjustStock s req.ingredient_id (-req.quantity_needed) with
      | .error e => .error e
      | .ok s1 => deductLoop s1 rest

/-- `StockManager.deductOrderStock`: re-runs the sufficiency check, throws
`INSUFFICIENT_STOCK` with the shortage list when it fails, otherwise deducts
every aggregate requirement and appends one "out" ledger entry per
ingredient.  (The returned `deductions` summary is not modelled; only the
state matters to the properties proved here.) -/
def deductOrderStock (s : DBState) (orderId : Nat) (items : List OrderItem) :
    Except ApiErr DBState :=
  if (checkOrderStock s items).canFulfill then
    match deductLoop s (checkOrderStock s items).requirements with
    | .error e => .error e
    | .ok s1 =>
        .ok { s1 with movements :=
                s1.movements ++
                  (checkOrderStock s items).requirements.map (deductMovement orderId) }
  else
    .error (.badRequest "Tidak bisa membuat order: stok tidak cukup"
      "INSUFFICIENT_STOCK" (checkOrderStock s items).shortages)

/-- Entry of the `returns` summary built by `returnOrderStock`. -/
structure ReturnEntry where
  ingredient_id : Nat
  ingredient_name : String
  quantity_returned : ℚ
  unit : String
  deriving Repr, DecidableEq

/-- Inner loop of `returnOrderStock` over one item's recipe rows: each row's
quantity is credited back via `Ingredient.adjustStock`; the `returns` summary
aggregates per ingredient, but a ledger entry is pushed only the first time
an ingredient is seen (a later row for the same ingredient bumps the summary
and leaves the already-pushed movement's quantity as it was). -/
def returnRowsLoop (orderId : Nat) (itemQty : ℚ) (rows : List RecipeView)
    (s : DBState) (rets : List ReturnEntry) (movs : List StockMovement) :
    Except ApiErr (DBState × List ReturnEntry × List StockMovement) :=
  match rows with
  | [] => .ok (s, rets, movs)
  | r :: rest =>
      let returnQuantity := r.quantity_needed * itemQty
      match Ingredient.adjustStock s r.ingredient_id returnQuantity with
      | .error e => .error e
      | .ok s1 =>
          if rets.any (fun e => e.ingredient_id == r.ingredient_id) then
            returnRowsLoop orderId itemQty rest s1
              (rets.map (fun e =>
                if e.ingredient_id = r.ingredient_id then
                  { e with quantity_returned := e.quantity_returned + returnQuantity }
                else e))
              movs
          else
            returnRowsLoop orderId itemQty rest s1
              (rets ++ [{ ingredient_id := r.ingredient_id
                          ingredient_name := r.ingredient_name
                          quantity_returned := returnQuantity
                          unit := r.unit }])
              (movs ++ [{ ingredient_id := r.ingredient_id
                          movement_type := "in"
                          quantity := returnQuantity
                          reference_type := "order_cancel"
                          reference_id := some orderId
                          notes := "Stock returned from cancelled order" }])

/-- Outer loop of `returnOrderStock` over the order items; each item's recipe
rows are re-read from the current state. -/
def returnItemsLoop (orderId : Nat) (items : List OrderItem) (s : DBState)
    (rets : List ReturnEntry) (movs : List StockMovement) :
    Except ApiErr (DBState × List ReturnEntry × List StockMovement) :=
  match items with
  | [] => .ok (s, rets, movs)
  | item :: rest =>
      match returnRowsLoop orderId item.quantity
          (Recipe.findByProductId s item.product_id) s rets movs with
      | .error e => .error e
      | .ok (s1, rets1, movs1) => returnItemsLoop orderId rest s1 rets1 movs1

/-- `StockManager.returnOrderStock`: credit every recipe quantity of the
order's items back to stock, then append the accumulated "in" ledger entries. -/
def returnOrderStock (s : DBState) (orderId : Nat) (items : List OrderItem) :
    Except ApiErr DBState :=
  match returnItemsLoop orderId items s [] [] with
  | .error e => .error e
  | .ok (s1, _rets, movs) => .ok { s1 with movements := s1.movements ++ movs }

/-- The signed amount applied by a manual adjustment: `in` forces positive
(`Math.abs`), `out` forces negative, `adjustment` passes through as given. -/
def manualAmount (quantity : ℚ) (ty : String) : ℚ :=
  if ty == "in" then |quantity|
  else if ty == "out" then -|quantity|
  else quantity

/-- `StockManager.adjustStock` (manual adjustment): derive the signed amount
from the type, reject a result below zero with `INSUFFICIENT_STOCK` before
mutating, otherwise adjust and append one manual ledger entry. -/
def adjustStock (s : DBState) (ingredientId : Nat) (quantity : ℚ) (ty : String)
    (notes : String) : Except ApiErr DBState :=
  match findIngredient s.ingredients ingredientId with
  | none => .error (.notFound "Bahan baku tidak ditemukan")
  | some ingredient =>
      if ingredient.stock_quantity + manualAmount quantity ty < 0 then
        .error (.badRequest "Tidak bisa mengurangi stok" "INSUFFICIENT_STOCK")
      else
        match Ingredient.adjustStock s ingredientId (manualAmount quantity ty) with
        | .error e => .error e
        | .ok s1 =>
            .ok { s1 with movements := s1.movements ++
                    [{ ingredient_id := ingredientId
                       movement_type := ty
                       quantity := manualAmount quantity ty
                       reference_type := "manual"
                       reference_id := none
                       notes := notes }] }

end StockManager

/-! ## Order model (`models/Order.js`; the `users` join is elided) -/

namespace Order

/-- `Order.findById`: first order row with the given id (items included). -/
def findById (s : DBState) (id : Nat) : Option Order :=
  s.orders.find? (fun o => o.id == id)

/-- `Order.create`: insert a pending order whose `total_amount` is the sum of
`unit_price * quantity` over its items; the fresh row id is `nextOrderId`. -/
def create (s : DBState) (cid : Nat) (items : List OrderItem) (notes : String) :
    DBState × Order :=
  let totalAmount := items.foldl (fun sum item => sum + item.unit_price * item.quantity) 0
  let o : Order :=
    { id := s.nextOrderId, customer_id := cid, items := items,
      total_amount := totalAmount, status := .pending, notes := notes }
  ({ s with orders := s.orders ++ [o], nextOrderId := s.nextOrderId + 1 }, o)

/-- `Order.updateStatus`: `UPDATE orders SET status = st WHERE id = id`,
error when no row matches. -/
def updateStatus (s : DBState) (id : Nat) (st : OrderStatus) : Except ApiErr DBState :=
  if s.orders.any (fun o => o.id == id) then
    .ok { s with orders :=
            s.orders.map (fun o => if o.id = id then { o with status := st } else o) }
  else
    .error (.notFound "Order not found")

/-- `Order.cancel`: `updateStatus(id, 'cancelled')`. -/
def cancel (s : DBState) (id : Nat) : Except ApiErr DBState :=
  updateStatus s id .cancelled

/-- `Order.update` restricted to what `OrderService.updateOrder` uses:
optionally replace the notes, optionally replace the item set (recomputing
`total_amount` from the new items). -/
def update (s : DBState) (id : Nat) (newItems : Option (List OrderItem))
    (newNotes : Option String) : DBState :=
  let s1 :=
    match newNotes with
    | none => s
    | some n =>
        { s with orders := s.orders.map (fun o => if o.id = id then { o with notes := n } else o) }
  match newItems with
  | none => s1
  | some its =>
      let totalAmount := its.foldl (fun sum item => sum + item.unit_price * item.quantity) 0
      { s1 with orders := s1.orders.map (fun o =>
          if o.id = id then { o with items := its, total_amount := totalAmount } else o) }

/-- `Order.createRevision`: append one immutable audit row. -/
def createRevision (s : DBState) (orderId revisedBy : Nat) (ty notes : String) : DBState :=
  { s with revisions := s.revisions ++ [{ order_id := orderId, revised_by := revisedBy,
                                          revision_type := ty, notes := notes }] }

end Order

/-! ## Product model (`models/Product.js`) -/

namespace Product

/-- `Product.findById`. -/
def findById (s : DBState) (id : Nat) : Option Product :=
  s.products.find? (fun p => p.id == id)

/-- `Product.updateCostPrice`: `UPDATE products SET cost_price = c WHERE id = id`,
error when no row matches (`.single()` on an empty result set). -/
def updateCostPrice (s : DBState) (id : Nat) (costPrice : ℚ) : Except ApiErr DBState :=
  if s.products.any (fun p => p.id == id) then
    .ok { s with products :=
            s.products.map (fun p => if p.id = id then { p with cost_price := costPrice } else p) }
  else
    .error (.notFound "Product not found")

end Product

/-! ## Cost Calculator (`services/costCalculator.js`) -/

/-- JavaScript `Math.round`: round half toward positive infinity. -/
def jsRound (x : ℚ) : ℤ := ⌊x + 1 / 2⌋

namespace CostCalculator

/-- One entry of the cost breakdown of `calculateProductCost`. -/
structure BreakdownEntry where
  ingredient_id : Nat
  quantity_needed : ℚ
  unit_price : ℚ
  cost : ℚ
  deriving Repr, DecidableEq

/-- Result of `calculateProductCost`; `message` is the diagnostic set for a
product without recipe entries. -/
structure CostResult where
  cost_price : ℚ
  breakdown : List BreakdownEntry
  message : Option String
  deriving Repr, DecidableEq

/-- `CostCalculator.calculateProductCost`: cost 0 plus a diagnostic when the
product has no recipe rows, otherwise the per-entry costs
`quantity_needed * unit_price` summed and rounded to 2 decimals. -/
def calculateProductCost (s : DBState) (pid : Nat) : CostResult :=
  let recipes := Recipe.findByProductId s pid
  if recipes.isEmpty then
    { cost_price := 0, breakdown := [], message := some "No recipe defined for this product" }
  else
    let breakdown := recipes.map (fun r =>
      { ingredient_id := r.ingredient_id
        quantity_needed := r.quantity_needed
        unit_price := r.unit_price
        cost := r.quantity_needed * r.unit_price : BreakdownEntry })
    let totalCost := breakdown.foldl (fun sum item => sum + item.cost) 0
    let roundedCost : ℚ := (jsRound (totalCost * 100) : ℚ) / 100
    { cost_price := roundedCost, breakdown := breakdown, message := none }

/-- `CostCalculator.updateProductCost`: recompute the cost and persist it on
the product row. -/
def updateProductCost (s : DBState) (pid : Nat) : Except ApiErr DBState :=
  Product.updateCostPrice s pid (calculateProductCost s pid).cost_price

/-- `[...new Set(xs)]`: deduplicate keeping first occurrences in order. -/
def jsDedup (xs : List Nat) : List Nat :=
  xs.foldl (fun acc x => if x ∈ acc then acc else acc ++ [x]) []

/-- Update loop of `recalculateByIngredient` over the affected product ids. -/
def recalcLoop (s : DBState) (pids : List Nat) : Except ApiErr DBState :=
  match pids with
  | [] => .ok s
  | pid :: rest =>
      match updateProductCost s pid with
      | .error e => .error e
      | .ok s1 => recalcLoop s1 rest

/-- `CostCalculator.recalculateByIngredient`: find every product whose recipe
references the ingredient and re-run `updateProductCost` for each. -/
def recalculateByIngredient (s : DBState) (iid : Nat) : Except ApiErr DBState :=
  let recipes := Recipe.findByIngredientId s iid
  let productIds := jsDedup (recipes.map (fun rp => rp.2.id))
  recalcLoop s productIds

end CostCalculator

/-! ## Order Service (`services/orderService.js`) -/

/-- An order line as submitted by the caller of the order endpoints. -/
structure ItemRequest where
  product_id : Nat
  quantity : ℚ
  deriving Repr, DecidableEq

namespace OrderService

/-- Validation/pricing loop of `createOrder`: resolve each line's product,
reject a missing or unavailable product, and freeze the current
`selling_price` onto the line. -/
def priceItems (s : DBState) (items : List ItemRequest) : Except ApiErr (List OrderItem) :=
  match items with
  | [] => .ok []
  | item :: rest =>
      match Product.findById s item.product_id with
      | none => .error (.notFound "Produk tidak ditemukan")
      | some product =>
          if !product.is_available then
            .error (.badRequest "Produk tidak tersedia")
          else
            match priceItems s rest with
            | .error e => .error e
            | .ok tail =>
                .ok ({ product_id := product.id, product_name := product.name,
                       quantity := item.quantity, unit_price := product.selling_price } :: tail)

/-- Validation/pricing loop of `updateOrder`: like `priceItems` but without
the availability check (the source's update path only checks existence). -/
def priceItemsUpdate (s : DBState) (items : List ItemRequest) :
    Except ApiErr (List OrderItem) :=
  match items with
  | [] => .ok []
  | item :: rest =>
      match Product.findById s item.product_id with
      | none => .error (.notFound "Produk tidak ditemukan")
      | some product =>
          match priceItemsUpdate s rest with
          | .error e => .error e
          | .ok tail =>
              .ok ({ product_id := product.id, product_name := product.name,
                     quantity := item.quantity, unit_price := product.selling_price } :: tail)

/-- `OrderService.createOrder`: validate and price the lines, check stock
sufficiency (fail fast with the shortage list), persist the order, then
deduct stock.  The first component of the result is the state as persisted —
also on an error thrown after a write. -/
def createOrder (s : DBState) (cid : Nat) (items : List ItemRequest) (notes : String) :
    DBState × Except ApiErr Order :=
  match priceItems s items with
  | .error e => (s, .error e)
  | .ok itemsWithPrices =>
      if !(StockManager.checkOrderStock s itemsWithPrices).canFulfill then
        (s, .error (.badRequest "Tidak bisa membuat order: stok bahan baku tidak cukup"
              "INSUFFICIENT_STOCK" (StockManager.checkOrderStock s itemsWithPrices).shortages))
      else
        match Order.create s cid itemsWithPrices notes with
        | (s1, order) =>
            match StockManager.deductOrderStock s1 order.id itemsWithPrices with
            | .error e => (s1, .error e)
            | .ok s2 => (s2, .ok order)

/-- `OrderService.updateOrder`: reject terminal orders; when the line set
changes, first return the stock of the current lines, then validate the new
lines, check sufficiency for them, re-deduct the original lines when the
check fails (and only then), otherwise record a revision, deduct the new
lines and persist the update. -/
def updateOrder (s : DBState) (orderId : Nat) (newItems : Option (List ItemRequest))
    (newNotes : Option String) (userId : Nat) : DBState × Except ApiErr Order :=
  match Order.findById s orderId with
  | none => (s, .error (.notFound "Order tidak ditemukan"))
  | some currentOrder =>
      if currentOrder.status = .completed ∨ currentOrder.status = .cancelled then
        (s, .error (.badRequest "Tidak bisa mengupdate order"))
      else
        match newItems with
        | none =>
            match Order.findById (Order.update s orderId none newNotes) orderId with
            | some updated => (Order.update s orderId none newNotes, .ok updated)
            | none => (Order.update s orderId none newNotes,
                .error (.notFound "Order tidak ditemukan"))
        | some itemsReq =>
            match StockManager.returnOrderStock s orderId currentOrder.items with
            | .error e => (s, .error e)
            | .ok s1 =>
                match priceItemsUpdate s1 itemsReq with
                | .error e => (s1, .error e)
                | .ok itemsWithPrices =>
                    if !(StockManager.checkOrderStock s1 itemsWithPrices).canFulfill then
                      match StockManager.deductOrderStock s1 orderId currentOrder.items with
                      | .error e' => (s1, .error e')
                      | .ok s2 =>
                          (s2, .error (.badRequest "Tidak bisa mengupdate order: stok tidak cukup"
                                "INSUFFICIENT_STOCK"
                                (StockManager.checkOrderStock s1 itemsWithPrices).shortages))
                    else
                      match StockManager.deductOrderStock
                          (Order.createRevision s1 orderId userId "update_quantity"
                            "Items updated") orderId itemsWithPrices with
                      | .error e => (Order.createRevision s1 orderId userId "update_quantity"
                          "Items updated", .error e)
                      | .ok s3 =>
                          match Order.findById
                              (Order.update s3 orderId (some itemsWithPrices) newNotes)
                              orderId with
                          | some updated =>
                              (Order.update s3 orderId (some itemsWithPrices) newNotes,
                                .ok updated)
                          | none =>
                              (Order.update s3 orderId (some itemsWithPrices) newNotes,
                                .error (.notFound "Order tidak ditemukan"))

/-- Transition table of `updateOrderStatus`. -/
def validTransitions : OrderStatus → List OrderStatus
  | .pending => [.processing, .cancelled]
  | .processing => [.completed, .cancelled]
  | .completed => []
  | .cancelled => []

/-- `OrderService.updateOrderStatus`: validate the transition table, return
stock on a transition into `cancelled`, record a revision, set the status. -/
def updateOrderStatus (s : DBState) (orderId : Nat) (newStatus : OrderStatus)
    (userId : Nat) : DBState × Except ApiErr Order :=
  match Order.findById s orderId with
  | none => (s, .error (.notFound "Order tidak ditemukan"))
  | some order =>
      if !(validTransitions order.status).contains newStatus then
        (s, .error (.badRequest "Tidak bisa mengubah status"))
      else
        match (if newStatus = .cancelled ∧ order.status ≠ .cancelled then
            StockManager.returnOrderStock s orderId order.items
          else
            .ok s) with
        | .error e => (s, .error e)
        | .ok s1 =>
            match Order.updateStatus
                (Order.createRevision s1 orderId userId "update_status" "Status changed")
                orderId newStatus with
            | .error e => (Order.createRevision s1 orderId userId "update_status"
                "Status changed", .error e)
            | .ok s3 =>
                match Order.findById s3 orderId with
                | some updated => (s3, .ok updated)
                | none => (s3, .error (.notFound "Order tidak ditemukan"))

/-- `OrderService.cancelOrder`: reject an already-cancelled or completed
order, otherwise return stock, record a `cancel_order` revision, and set the
status to `cancelled`. -/
def cancelOrder (s : DBState) (orderId : Nat) (userId : Nat) (reason : String) :
    DBState × Except ApiErr Order :=
  match Order.findById s orderId with
  | none => (s, .error (.notFound "Order tidak ditemukan"))
  | some order =>
      if order.status = .cancelled then
        (s, .error (.badRequest "Order sudah dibatalkan sebelumnya"))
      else if order.status = .completed then
        (s, .error (.badRequest "Tidak bisa membatalkan order yang sudah selesai"))
      else
        match StockManager.returnOrderStock s orderId order.items with
        | .error e => (s, .error e)
        | .ok s1 =>
            match Order.cancel
                (Order.createRevision s1 orderId userId "cancel_order"
                  (if reason == "" then "Order cancelled" else reason)) orderId with
            | .error e => (Order.createRevision s1 orderId userId "cancel_order"
                (if reason == "" then "Order cancelled" else reason), .error e)
            | .ok s3 =>
                match Order.findById s3 orderId with
                | some cancelled => (s3, .ok cancelled)
                | none => (s3, .error (.notFound "Order tidak ditemukan"))

end OrderService

/-! ## Core operation language (the operations named by the invariants) -/

/-- One core operation submitted to the service layer. -/
inductive Op where
  | createOrder (cid : Nat) (items : List ItemRequest) (notes : String)
  | updateOrder (orderId : Nat) (items : Option (List ItemRequest))
      (notes : Option String) (userId : Nat)
  | updateOrderStatus (orderId : Nat) (newStatus : OrderStatus) (userId : Nat)
  | cancelOrder (orderId : Nat) (userId : Nat) (reason : String)
  | adjustStock (ingredientId : Nat) (quantity : ℚ) (ty : String) (notes : String)

/-- Run one core operation; the first component is the persisted state (also
when the operation reports an error), the second the reported outcome. -/
def runOp (s : DBState) (op : Op) : DBState × Except ApiErr Unit :=
  match op with
  | .createOrder cid items notes =>
      let (s', r) := OrderService.createOrder s cid items notes
      (s', r.map (fun _ => ()))
  | .updateOrder oid items notes uid =>
      let (s', r) := OrderService.updateOrder s oid items notes uid
      (s', r.map (fun _ => ()))
  | .updateOrderStatus oid st uid =>
      let (s', r) := OrderService.updateOrderStatus s oid st uid
      (s', r.map (fun _ => ()))
  | .cancelOrder oid uid reason =>
      let (s', r) := OrderService.cancelOrder s oid uid reason
      (s', r.map (fun _ => ()))
  | .adjustStock iid q ty notes =>
      match StockManager.adjustStock s iid q ty notes with
      | .error e => (s, .error e)
      | .ok s' => (s', .ok ())

/-- Run a sequence of core operations, keeping the persisted state of each. -/
def runOps (s : DBState) (ops : List Op) : DBState :=
  ops.foldl (fun s op => (runOp s op).1) s

/-! ## Specification-side projections and well-formedness -/

/-- Stock on hand of the ingredient with the given id (`none` when absent). -/
def stockOf (l : List Ingredient) (j : Nat) : Option ℚ :=
  (findIngredient l j).map (fun i => i.stock_quantity)

/-- Everything of an ingredient row except its stock on hand. -/
def ingKey (i : Ingredient) : Nat × String × String × ℚ × ℚ :=
  (i.id, i.name, i.unit, i.min_stock_threshold, i.unit_price)

/-- Everything of a joined recipe view except the stock snapshot. -/
def viewKey (v : RecipeView) : Nat × String × String × ℚ × ℚ :=
  (v.ingredient_id, v.ingredient_name, v.unit, v.quantity_needed, v.unit_price)

/-- Two states that agree on recipes and on every ingredient column except
the stock on hand. -/
def EqSkel (s t : DBState) : Prop :=
  s.recipes = t.recipes ∧ s.ingredients.map ingKey = t.ingredients.map ingKey

/-- The flattened (ingredient, signed requirement) rows of an item list: one
pair per recipe row of each item, weighted by the item quantity. -/
def orderRows (s : DBState) (items : List OrderItem) : List (Nat × ℚ) :=
  items.flatMap (fun it =>
    (Recipe.findByProductId s it.product_id).map
      (fun r => (r.ingredient_id, r.quantity_needed * it.quantity)))

/-- Aggregate quantity of one ingredient needed to fulfill an item list. -/
def requiredFor (s : DBState) (items : List OrderItem) (j : Nat) : ℚ :=
  (((orderRows s items).filter (fun p => p.1 == j)).map (fun p => p.2)).sum

/-- Aggregate quantity of one ingredient over a single item's recipe rows. -/
def rowSum (rows : List RecipeView) (q : ℚ) (j : Nat) : ℚ :=
  (((rows.filter (fun r => r.ingredient_id == j)).map
    (fun r => r.quantity_needed * q))).sum

/-- Signed ledger total for one ingredient. -/
def ledgerSum (movs : List StockMovement) (j : Nat) : ℚ :=
  (((movs.filter (fun m => m.ingredient_id == j)).map (fun m => m.quantity))).sum

/-- Quantity recorded for one ingredient in a requirement list (0 if absent). -/
def reqQty (reqs : List Requirement) (j : Nat) : ℚ :=
  ((reqs.find? (fun e => e.ingredient_id == j)).map (fun e => e.quantity_needed)).getD 0

/-- The invariant tying a requirement entry to the state it was read from. -/
def ReqInv (s : DBState) (e : Requirement) : Prop :=
  ∃ ing, findIngredient s.ingredients e.ingredient_id = some ing ∧
    e.current_stock = ing.stock_quantity ∧
    e.ingredient_name = ing.name ∧ e.unit = ing.unit

/-- Well-formed database state: the integrity conditions enforced by the
schema (non-negative stock per the core invariant, non-negative recipe
quantities, positive order-item quantities per `CHECK (quantity > 0)`, and
order ids below the allocator). -/
def WF (s : DBState) : Prop :=
  (∀ i ∈ s.ingredients, 0 ≤ i.stock_quantity) ∧
  (∀ r ∈ s.recipes, 0 ≤ r.quantity_needed) ∧
  (∀ o ∈ s.orders, ∀ it ∈ o.items, 0 ≤ it.quantity) ∧
  (∀ o ∈ s.orders, o.id < s.nextOrderId)

/-- Requests with non-negative line quantities, as the request validators
and the `CHECK (quantity > 0)` column constraint guarantee. -/
def Op.goodInput : Op → Prop
  | .createOrder _ items _ => ∀ it ∈ items, 0 ≤ it.quantity
  | .updateOrder _ items _ _ => ∀ its, items = some its → ∀ it ∈ its, 0 ≤ it.quantity
  | .updateOrderStatus _ _ _ => True
  | .cancelOrder _ _ _ => True
  | .adjustStock _ _ _ _ => True

/-- Whether some recipe row ties the product to the ingredient: the set of
products a cost recalculation for the ingredient must touch. -/
def referencesIngredient (s : DBState) (iid pid : Nat) : Bool :=
  s.recipes.any (fun r => r.ingredient_id == iid && r.product_id == pid)

/-- Pointwise effect of the cost-recalculation loop on a product row. -/
def setCost (s : DBState) (pids : List Nat) (p : Product) : Product :=
  if p.id ∈ pids then
    { p with cost_price := (CostCalculator.calculateProductCost s p.id).cost_price }
  else p

/-- The order of a successful result (a placeholder row otherwise). -/
def orderOf (r : Except ApiErr Order) : Order :=
  match r with
  | .ok o => o
  | .error _ => { id := 0, customer_id := 0, items := [], total_amount := 0,
                  status := .pending, notes := "" }

/-- The error of a failed result (a placeholder otherwise). -/
def errOf (r : Except ApiErr Order) : ApiErr :=
  match r with
  | .ok _ => ApiErr.badRequest ""
  | .error e => e

/-- Concrete fixture: one ingredient shared by the recipes of two products. -/
def exIngredients : List Ingredient :=
  [{ id := 1, name := "Flour", unit := "g", stock_quantity := 100,
     min_stock_threshold := 20, unit_price := 2 }]

def exProducts : List Product :=
  [{ id := 1, name := "Bread", selling_price := 10, cost_price := 0, is_available := true },
   { id := 2, name := "Bun", selling_price := 5, cost_price := 0, is_available := true }]

def exRecipes : List RecipeRow :=
  [{ product_id := 1, ingredient_id := 1, quantity_needed := 10 },
   { product_id := 2, ingredient_id := 1, quantity_needed := 5 }]

def exState : DBState :=
  { ingredients := exIngredients, products := exProducts, recipes := exRecipes,
    orders := [], movements := [], revisions := [], nextOrderId := 1 }

/-- One unit of each product: the two recipes share ingredient 1. -/
def exItems : List ItemRequest := [⟨1, 1⟩, ⟨2, 1⟩]

/-- Create an order for `exItems`, then cancel it. -/
def exOps : List Op := [Op.createOrder 7 exItems "", Op.cancelOrder 1 9 ""]

/-- The state persisted by creating the order. -/
def exS1 : DBState := (OrderService.createOrder exState 7 exItems "").1

/-- The order created from `exState`. -/
def exOrder : Order := orderOf (OrderService.createOrder exState 7 exItems "").2

/-- The state persisted by then cancelling the order. -/
def exS2 : DBState := (OrderService.cancelOrder exS1 1 9 "").1

/-- The cancelled order row as stored in `exS2`. -/
def exCancelledOrder : Order := { exOrder with status := .cancelled }

/-- A request for eleven breads: 110 units of flour against 100 in stock. -/
def exBigReq : List ItemRequest := [⟨1, 11⟩]

/-- `exBigReq` as priced by `priceItems`. -/
def exBigItems : List OrderItem :=
  [{ product_id := 1, product_name := "Bread", quantity := 11, unit_price := 10 }]

/-! ## List-level infrastructure -/

theorem find?_map_comm {α : Type} (p : α → Bool) (f : α → α)
    (hf : ∀ a, p (f a) = p a) (l : List α) :
    (l.map f).find? p = (l.find? p).map f := by
  induction l with
  | nil => rfl
  | cons a l ih =>
      by_cases h : p a = true
      · rw [List.map_cons, List.find?_cons_of_pos _ (by rw [hf]; exact h),
          List.find?_cons_of_pos _ h, Option.map_some']
      · rw [List.map_cons, List.find?_cons_of_neg _ (by rw [hf]; simpa using h),
          List.find?_cons_of_neg _ (by simpa using h), ih]

theorem filterMap_map_congr {α β γ : Type} {f g : α → Option β} (k : β → γ)
    (l : List α) (h : ∀ a ∈ l, (f a).map k = (g a).map k) :
    (l.filterMap f).map k = (l.filterMap g).map k := by
  induction l with
  | nil => rfl
  | cons a l ih =>
      have ha := h a (by simp)
      have hrest := ih (fun x hx => h x (by simp [hx]))
      cases hfa : f a with
      | none =>
          cases hga : g a with
          | none => simp only [List.filterMap_cons, hfa, hga, hrest]
          | some b => rw [hfa, hga] at ha; simp at ha
      | some b =>
          cases hga : g a with
          | none => rw [hfa, hga] at ha; simp at ha
          | some c =>
              rw [hfa, hga] at ha
              simp only [Option.map_some', Option.some.injEq] at ha
              simp only [List.filterMap_cons, hfa, hga, List.map_cons, hrest, ha]

theorem flatMap_congr {α β : Type} {f g : α → List β} (l : List α)
    (h : ∀ a ∈ l, f a = g a) : l.flatMap f = l.flatMap g := by
  induction l with
  | nil => rfl
  | cons a l ih =>
      simp only [List.flatMap_cons, h a (by simp), ih (fun x hx => h x (by simp [hx]))]

theorem find?_self_of_nodup {α : Type} (key : α → Nat) (l : List α) (e : α)
    (hnd : (l.map key).Nodup) (he : e ∈ l) :
    l.find? (fun x => key x == key e) = some e := by
  induction l with
  | nil => cases he
  | cons a l ih =>
      simp only [List.map_cons, List.nodup_cons] at hnd
      rcases List.mem_cons.mp he with rfl | hmem
      · exact List.find?_cons_of_pos _ (by simp)
      · have hne : key a ≠ key e := by
          intro heq
          exact hnd.1 (by rw [heq]; exact List.mem_map_of_mem key hmem)
        rw [List.find?_cons_of_neg _ (by simpa using hne)]
        exact ih hnd.2 hmem

/-! ## Ingredient-store lemmas -/

theorem findIngredient_updateStockList (l : List Ingredient) (i : Nat) (q : ℚ) (j : Nat) :
    findIngredient (updateStockList l i q) j =
      (findIngredient l j).map (fun ing =>
        if ing.id = i then { ing with stock_quantity := q } else ing) := by
  unfold findIngredient updateStockList
  exact find?_map_comm _ _ (fun a => by split <;> rfl) l

theorem ingKey_updateStockList (l : List Ingredient) (i : Nat) (q : ℚ) :
    (updateStockList l i q).map ingKey = l.map ingKey := by
  unfold updateStockList
  rw [List.map_map]
  apply List.map_congr_left
  intro a _
  simp only [Function.comp]
  split <;> rfl

theorem id_of_findIngredient {l : List Ingredient} {j : Nat} {ing : Ingredient}
    (h : findIngredient l j = some ing) : ing.id = j := by
  have := List.find?_some h
  simpa using this

theorem mem_of_findIngredient {l : List Ingredient} {j : Nat} {ing : Ingredient}
    (h : findIngredient l j = some ing) : ing ∈ l :=
  List.mem_of_find?_eq_some h

theorem stockOf_updateStockList (l : List Ingredient) (i : Nat) (q : ℚ) (j : Nat) :
    stockOf (updateStockList l i q) j =
      if j = i then (stockOf l j).map (fun _ => q) else stockOf l j := by
  unfold stockOf
  rw [findIngredient_updateStockList]
  cases hf : findIngredient l j with
  | none => simp
  | some ing =>
      have hid : ing.id = j := id_of_findIngredient hf
      by_cases hji : j = i
      · simp [Option.map_some', hid, hji]
      · simp [Option.map_some', hid, hji]

theorem updateStockList_nonneg {l : List Ingredient} {i : Nat} {q : ℚ}
    (h : ∀ x ∈ l, 0 ≤ x.stock_quantity) (hq : 0 ≤ q) :
    ∀ x ∈ updateStockList l i q, 0 ≤ x.stock_quantity := by
  intro x hx
  simp only [updateStockList, List.mem_map] at hx
  obtain ⟨a, ha, rfl⟩ := hx
  split
  · exact hq
  · exact h a ha

theorem findIngredient_congr_key {l₁ l₂ : List Ingredient}
    (h : l₁.map ingKey = l₂.map ingKey) (j : Nat) :
    (findIngredient l₁ j).map ingKey = (findIngredient l₂ j).map ingKey := by
  induction l₁ generalizing l₂ with
  | nil =>
      cases l₂ with
      | nil => rfl
      | cons b l₂ => simp at h
  | cons a l₁ ih =>
      cases l₂ with
      | nil => simp at h
      | cons b l₂ =>
          simp only [List.map_cons, List.cons.injEq] at h
          obtain ⟨hab, htl⟩ := h
          have hid : a.id = b.id := congrArg Prod.fst hab
          by_cases hj : a.id = j
          · rw [findIngredient, findIngredient,
              List.find?_cons_of_pos _ (by simpa using hj),
              List.find?_cons_of_pos _ (by simp [← hid, hj])]
            simpa using hab
          · rw [findIngredient, findIngredient,
              List.find?_cons_of_neg _ (by simpa using hj),
              List.find?_cons_of_neg _ (by simp [← hid]; simpa using hj)]
            exact ih htl

theorem isSome_of_congr_key {l₁ l₂ : List Ingredient}
    (h : l₁.map ingKey = l₂.map ingKey) (j : Nat) :
    (findIngredient l₁ j).isSome = (findIngredient l₂ j).isSome := by
  have := congrArg Option.isSome (findIngredient_congr_key h j)
  simpa using this

/-! ## `Ingredient.adjustStock` lemmas -/

theorem adjustStock_ok_inv {s s' : DBState} {j : Nat} {a : ℚ}
    (h : Ingredient.adjustStock s j a = .ok s') :
    ∃ cur, findIngredient s.ingredients j = some cur ∧
      s' = { s with ingredients :=
               updateStockList s.ingredients j (max 0 (cur.stock_quantity + a)) } := by
  unfold Ingredient.adjustStock at h
  cases hf : findIngredient s.ingredients j with
  | none => rw [hf] at h; simp at h
  | some cur =>
      rw [hf] at h
      simp only [Except.ok.injEq] at h
      exact ⟨cur, rfl, h.symm⟩

theorem adjustStock_ok_of_isSome {s : DBState} {j : Nat} (a : ℚ)
    (h : (findIngredient s.ingredients j).isSome = true) :
    ∃ s', Ingredient.adjustStock s j a = .ok s' := by
  unfold Ingredient.adjustStock
  cases hf : findIngredient s.ingredients j with
  | none => rw [hf] at h; simp at h
  | some cur => exact ⟨_, rfl⟩

theorem adjustStock_frame {s s' : DBState} {j : Nat} {a : ℚ}
    (h : Ingredient.adjustStock s j a = .ok s') :
    s'.products = s.products ∧ s'.recipes = s.recipes ∧ s'.orders = s.orders ∧
    s'.movements = s.movements ∧ s'.revisions = s.revisions ∧
    s'.nextOrderId = s.nextOrderId := by
  obtain ⟨cur, -, rfl⟩ := adjustStock_ok_inv h
  exact ⟨rfl, rfl, rfl, rfl, rfl, rfl⟩

theorem adjustStock_ingKey {s s' : DBState} {j : Nat} {a : ℚ}
    (h : Ingredient.adjustStock s j a = .ok s') :
    s'.ingredients.map ingKey = s.ingredients.map ingKey := by
  obtain ⟨cur, -, rfl⟩ := adjustStock_ok_inv h
  exact ingKey_updateStockList _ _ _

theorem adjustStock_stockOf {s s' : DBState} {j : Nat} {a : ℚ}
    (h : Ingredient.adjustStock s j a = .ok s') :
    ∀ k, stockOf s'.ingredients k =
      if k = j then (stockOf s.ingredients j).map (fun c => max 0 (c + a))
      else stockOf s.ingredients k := by
  obtain ⟨cur, hcur, rfl⟩ := adjustStock_ok_inv h
  intro k
  rw [stockOf_updateStockList]
  by_cases hk : k = j
  · simp only [hk, if_pos rfl]
    unfold stockOf
    rw [hcur]
    rfl
  · simp [hk]

theorem adjustStock_nonneg {s s' : DBState} {j : Nat} {a : ℚ}
    (h : Ingredient.adjustStock s j a = .ok s')
    (hn : ∀ x ∈ s.ingredients, 0 ≤ x.stock_quantity) :
    ∀ x ∈ s'.ingredients, 0 ≤ x.stock_quantity := by
  obtain ⟨cur, -, rfl⟩ := adjustStock_ok_inv h
  exact updateStockList_nonneg hn (le_max_left _ _)

/-! ## Skeleton congruence for recipe views and aggregate requirements -/

theorem EqSkel.refl (s : DBState) : EqSkel s s := ⟨rfl, rfl⟩

theorem EqSkel.trans {s t u : DBState} (h₁ : EqSkel s t) (h₂ : EqSkel t u) :
    EqSkel s u := ⟨h₁.1.trans h₂.1, h₁.2.trans h₂.2⟩

theorem findByProductId_key_congr {s t : DBState} (h : EqSkel s t) (pid : Nat) :
    (Recipe.findByProductId s pid).map viewKey =
      (Recipe.findByProductId t pid).map viewKey := by
  obtain ⟨hrec, hing⟩ := h
  unfold Recipe.findByProductId
  rw [hrec]
  apply filterMap_map_congr
  intro r _
  have hkey := findIngredient_congr_key hing r.ingredient_id
  cases h₁ : findIngredient s.ingredients r.ingredient_id with
  | none =>
      cases h₂ : findIngredient t.ingredients r.ingredient_id with
      | none => simp
      | some ing₂ => rw [h₁, h₂] at hkey; simp at hkey
  | some ing₁ =>
      cases h₂ : findIngredient t.ingredients r.ingredient_id with
      | none => rw [h₁, h₂] at hkey; simp at hkey
      | some ing₂ =>
          rw [h₁, h₂] at hkey
          simp only [Option.map_some', Option.some.injEq] at hkey
          have h1 : ing₁.name = ing₂.name := congrArg (fun p => p.2.1) hkey
          have h2 : ing₁.unit = ing₂.unit := congrArg (fun p => p.2.2.1) hkey
          have h3 : ing₁.unit_price = ing₂.unit_price := congrArg (fun p => p.2.2.2.2) hkey
          simp [viewKey, h1, h2, h3]

theorem orderRows_congr {s t : DBState} (h : EqSkel s t) (items : List OrderItem) :
    orderRows s items = orderRows t items := by
  unfold orderRows
  apply flatMap_congr
  intro it _
  have hkey := findByProductId_key_congr h it.product_id
  have : ∀ (l₁ l₂ : List RecipeView), l₁.map viewKey = l₂.map viewKey →
      l₁.map (fun r => (r.ingredient_id, r.quantity_needed * it.quantity)) =
      l₂.map (fun r => (r.ingredient_id, r.quantity_needed * it.quantity)) := by
    intro l₁ l₂ hkeys
    have := congrArg (List.map (fun p : Nat × String × String × ℚ × ℚ =>
      (p.1, p.2.2.2.1 * it.quantity))) hkeys
    simpa [List.map_map, Function.comp, viewKey] using this
  exact this _ _ hkey

theorem requiredFor_congr {s t : DBState} (h : EqSkel s t) (items : List OrderItem) :
    requiredFor s items = requiredFor t items := by
  funext j
  unfold requiredFor
  rw [orderRows_congr h]

/-- Membership in a joined recipe view: every view row comes from an existing
recipe row and an existing ingredient. -/
theorem mem_findByProductId {s : DBState} {pid : Nat} {v : RecipeView}
    (h : v ∈ Recipe.findByProductId s pid) :
    ∃ rr ∈ s.recipes, rr.product_id = pid ∧ rr.ingredient_id = v.ingredient_id ∧
      rr.quantity_needed = v.quantity_needed ∧
    ∃ ing, findIngredient s.ingredients v.ingredient_id = some ing ∧
      v.ingredient_name = ing.name ∧ v.unit = ing.unit ∧
      v.unit_price = ing.unit_price ∧ v.stock_quantity = ing.stock_quantity := by
  unfold Recipe.findByProductId at h
  rw [List.mem_filterMap] at h
  obtain ⟨rr, hrr, hmap⟩ := h
  rw [List.mem_filter] at hrr
  cases hf : findIngredient s.ingredients rr.ingredient_id with
  | none => rw [hf] at hmap; simp at hmap
  | some ing =>
      rw [hf] at hmap
      simp only [Option.map_some', Option.some.injEq] at hmap
      refine ⟨rr, hrr.1, by simpa using hrr.2, ?_, ?_, ing, ?_, ?_, ?_, ?_, ?_⟩ <;>
        simp [← hmap, hf]

theorem reqQty_nil (j : Nat) : reqQty [] j = 0 := rfl

/-- Effect of one `addRequirement` step on the recorded aggregate quantity. -/
theorem reqQty_addRequirement (reqs : List Requirement) (r : RecipeView)
    (q : ℚ) (j : Nat) :
    reqQty (StockManager.addRequirement reqs r q) j =
      reqQty reqs j + (if j = r.ingredient_id then r.quantity_needed * q else 0) := by
  unfold StockManager.addRequirement reqQty
  by_cases hmem : reqs.any (fun e => e.ingredient_id == r.ingredient_id) = true
  · rw [if_pos hmem]
    rw [find?_map_comm _ _ (fun e => by split <;> rfl)]
    cases hf : reqs.find? (fun e => e.ingredient_id == j) with
    | none =>
        by_cases hj : j = r.ingredient_id
        · exfalso
          rw [List.any_eq_true] at hmem
          obtain ⟨e, he, hpe⟩ := hmem
          rw [List.find?_eq_none] at hf
          exact hf e he (by simpa [hj] using hpe)
        · simp [hj]
    | some e =>
        have hid : e.ingredient_id = j := by simpa using List.find?_some hf
        by_cases hj : j = r.ingredient_id
        · simp [hid, hj]
        · simp [hid, hj]
  · rw [if_neg hmem]
    rw [List.find?_append]
    by_cases hj : j = r.ingredient_id
    · have hnone : reqs.find? (fun e => e.ingredient_id == j) = none := by
        rw [List.find?_eq_none]
        intro e he hpe
        rw [List.any_eq_true] at hmem
        exact hmem ⟨e, he, by simpa [hj] using hpe⟩
      rw [hnone]
      simp [List.find?_cons, hj, reqQty]
    · cases hf : reqs.find? (fun e => e.ingredient_id == j) with
      | none => simp [List.find?_cons, Ne.symm hj, hj]
      | some e => simp [hj]

/-- `addRequirement` keeps the recorded ingredient ids, except that an unseen
ingredient is appended at the end. -/
theorem ids_addRequirement (reqs : List Requirement) (r : RecipeView) (q : ℚ) :
    (StockManager.addRequirement reqs r q).map (fun e => e.ingredient_id) =
      if reqs.any (fun e => e.ingredient_id == r.ingredient_id) then
        reqs.map (fun e => e.ingredient_id)
      else
        reqs.map (fun e => e.ingredient_id) ++ [r.ingredient_id] := by
  unfold StockManager.addRequirement
  by_cases hmem : reqs.any (fun e => e.ingredient_id == r.ingredient_id) = true
  · rw [if_pos hmem, if_pos hmem, List.map_map]
    apply List.map_congr_left
    intro e _
    simp only [Function.comp]
    split <;> rfl
  · rw [if_neg hmem, if_neg hmem, List.map_append]
    rfl

theorem any_id_map_preserve {f : Requirement → Requirement}
    (hf : ∀ e, (f e).ingredient_id = e.ingredient_id) (reqs : List Requirement)
    (k : Nat) :
    (reqs.map f).any (fun e => e.ingredient_id == k) =
      reqs.any (fun e => e.ingredient_id == k) := by
  induction reqs with
  | nil => rfl
  | cons a l ih => simp [List.any_cons, hf, ih]

theorem any_id_addRequirement (reqs : List Requirement) (r : RecipeView) (q : ℚ)
    (k : Nat) :
    (StockManager.addRequirement reqs r q).any (fun e => e.ingredient_id == k) =
      (reqs.any (fun e => e.ingredient_id == k) || (r.ingredient_id == k)) := by
  unfold StockManager.addRequirement
  by_cases hmem : reqs.any (fun e => e.ingredient_id == r.ingredient_id) = true
  · rw [if_pos hmem,
      any_id_map_preserve (fun e => by split <;> rfl)]
    by_cases hk : r.ingredient_id = k
    · subst hk
      simp only [beq_self_eq_true, Bool.or_true]
      rw [List.any_eq_true] at hmem ⊢
      obtain ⟨e, he, hpe⟩ := hmem
      exact ⟨e, he, hpe⟩
    · simp [hk]
  · rw [if_neg hmem, List.any_append]
    simp [List.any_cons]

theorem nodup_ids_addRequirement (reqs : List Requirement) (r : RecipeView) (q : ℚ)
    (h : (reqs.map (fun e => e.ingredient_id)).Nodup) :
    ((StockManager.addRequirement reqs r q).map (fun e => e.ingredient_id)).Nodup := by
  rw [ids_addRequirement]
  by_cases hmem : reqs.any (fun e => e.ingredient_id == r.ingredient_id) = true
  · rwa [if_pos hmem]
  · rw [if_neg hmem]
    rw [List.nodup_append]
    refine ⟨h, List.nodup_singleton _, ?_⟩
    intro a ha hb
    rw [List.mem_singleton] at hb
    subst hb
    rw [List.mem_map] at ha
    obtain ⟨e, he, hei⟩ := ha
    rw [List.any_eq_true] at hmem
    exact hmem ⟨e, he, by simpa using hei⟩

/-- Members of `addRequirement` either refine an existing entry (same id,
name, unit and snapshot stock) or are the freshly pushed row. -/
theorem mem_addRequirement {reqs : List Requirement} {r : RecipeView} {q : ℚ}
    {e : Requirement} (h : e ∈ StockManager.addRequirement reqs r q) :
    (∃ e₀ ∈ reqs, e.ingredient_id = e₀.ingredient_id ∧
      e.ingredient_name = e₀.ingredient_name ∧ e.unit = e₀.unit ∧
      e.current_stock = e₀.current_stock) ∨
    (e.ingredient_id = r.ingredient_id ∧ e.ingredient_name = r.ingredient_name ∧
      e.unit = r.unit ∧ e.current_stock = r.stock_quantity) := by
  unfold StockManager.addRequirement at h
  by_cases hmem : reqs.any (fun e => e.ingredient_id == r.ingredient_id) = true
  · rw [if_pos hmem] at h
    rw [List.mem_map] at h
    obtain ⟨e₀, he₀, rfl⟩ := h
    left
    refine ⟨e₀, he₀, ?_⟩
    split <;> exact ⟨rfl, rfl, rfl, rfl⟩
  · rw [if_neg hmem] at h
    rw [List.mem_append] at h
    rcases h with h | h
    · exact Or.inl ⟨e, h, rfl, rfl, rfl, rfl⟩
    · rw [List.mem_singleton] at h
      subst h
      exact Or.inr ⟨rfl, rfl, rfl, rfl⟩

/-- `rowSum` over the pair projection used by `orderRows`. -/
theorem rowSum_eq_pairs (rows : List RecipeView) (q : ℚ) (j : Nat) :
    rowSum rows q j =
      ((((rows.map (fun r => (r.ingredient_id, r.quantity_needed * q))).filter
        (fun p => p.1 == j)).map (fun p => p.2))).sum := by
  induction rows with
  | nil => rfl
  | cons a rows ih =>
      by_cases ha : a.ingredient_id = j
      · simp only [rowSum, List.filter_cons, List.map_cons] at *
        simp [ha, ih, rowSum]
      · simp only [rowSum, List.filter_cons, List.map_cons] at *
        simp [ha, ih, rowSum]

theorem requiredFor_cons (s : DBState) (it : OrderItem) (items : List OrderItem)
    (j : Nat) :
    requiredFor s (it :: items) j =
      rowSum (Recipe.findByProductId s it.product_id) it.quantity j +
        requiredFor s items j := by
  unfold requiredFor orderRows
  rw [List.flatMap_cons, List.filter_append, List.map_append, List.sum_append,
    rowSum_eq_pairs]

theorem requiredFor_nil (s : DBState) (j : Nat) : requiredFor s [] j = 0 := rfl

/-- Aggregate quantity recorded by the inner requirement fold of
`checkOrderStock` over one item's recipe rows. -/
theorem reqQty_rowsFold (q : ℚ) (j : Nat) :
    ∀ (rows : List RecipeView) (acc : List Requirement),
      reqQty (rows.foldl (fun reqs r => StockManager.addRequirement reqs r q) acc) j =
        reqQty acc j + rowSum rows q j := by
  intro rows
  induction rows with
  | nil => intro acc; simp [rowSum, reqQty_nil]
  | cons a rows ih =>
      intro acc
      rw [List.foldl_cons, ih, reqQty_addRequirement]
      by_cases ha : j = a.ingredient_id
      · simp only [rowSum, List.filter_cons]
        simp [ha, rowSum, add_assoc]
      · simp only [rowSum, List.filter_cons]
        simp [ha, Ne.symm ha, rowSum, add_assoc]

/-- Aggregate quantity recorded by the full requirement collection. -/
theorem reqQty_collectFold (s : DBState) (j : Nat) :
    ∀ (items : List OrderItem) (acc : List Requirement),
      reqQty (items.foldl (fun reqs item =>
          (Recipe.findByProductId s item.product_id).foldl
            (fun reqs r => StockManager.addRequirement reqs r item.quantity) reqs) acc) j =
        reqQty acc j + requiredFor s items j := by
  intro items
  induction items with
  | nil => intro acc; simp [requiredFor_nil]
  | cons it items ih =>
      intro acc
      rw [List.foldl_cons, ih, reqQty_rowsFold, requiredFor_cons, add_assoc]

theorem reqQty_collectRequirements (s : DBState) (items : List OrderItem) (j : Nat) :
    reqQty (StockManager.collectRequirements s items) j = requiredFor s items j := by
  unfold StockManager.collectRequirements
  rw [reqQty_collectFold]
  simp [reqQty_nil]

/-- Ingredient presence after the inner requirement fold. -/
theorem any_id_rowsFold (q : ℚ) (k : Nat) :
    ∀ (rows : List RecipeView) (acc : List Requirement),
      ((rows.foldl (fun reqs r => StockManager.addRequirement reqs r q) acc).any
        (fun e => e.ingredient_id == k)) =
      (acc.any (fun e => e.ingredient_id == k) ||
        rows.any (fun r => r.ingredient_id == k)) := by
  intro rows
  induction rows with
  | nil => intro acc; simp
  | cons a rows ih =>
      intro acc
      rw [List.foldl_cons, ih, any_id_addRequirement]
      simp [List.any_cons, Bool.or_assoc]

/-- Ingredient presence after the full requirement collection. -/
theorem any_id_collectFold (s : DBState) (k : Nat) :
    ∀ (items : List OrderItem) (acc : List Requirement),
      ((items.foldl (fun reqs item =>
          (Recipe.findByProductId s item.product_id).foldl
            (fun reqs r => StockManager.addRequirement reqs r item.quantity) reqs) acc).any
        (fun e => e.ingredient_id == k)) =
      (acc.any (fun e => e.ingredient_id == k) ||
        (orderRows s items).any (fun p => p.1 == k)) := by
  intro items
  induction items with
  | nil => intro acc; simp [orderRows]
  | cons it items ih =>
      intro acc
      rw [List.foldl_cons, ih, any_id_rowsFold]
      have hpair : ((Recipe.findByProductId s it.product_id).map
          (fun r => (r.ingredient_id, r.quantity_needed * it.quantity))).any
            (fun p => p.1 == k) =
          (Recipe.findByProductId s it.product_id).any (fun r => r.ingredient_id == k) := by
        induction Recipe.findByProductId s it.product_id with
        | nil => rfl
        | cons v vs ihv => simp [List.any_cons, ihv]
      simp [orderRows, List.flatMap_cons, List.any_append, hpair, Bool.or_assoc]

/-- An ingredient untouched by the item list has zero aggregate requirement. -/
theorem requiredFor_eq_zero_of_not_touched (s : DBState) (items : List OrderItem)
    (j : Nat) (h : (orderRows s items).any (fun p => p.1 == j) = false) :
    requiredFor s items j = 0 := by
  unfold requiredFor
  have : (orderRows s items).filter (fun p => p.1 == j) = [] := by
    rw [List.filter_eq_nil_iff]
    intro p hp
    rw [List.any_eq_false] at h
    exact fun hpj => h p hp hpj
  rw [this]
  rfl

/-- Nodup of the recorded ingredient ids, over the inner fold. -/
theorem nodup_ids_rowsFold (q : ℚ) :
    ∀ (rows : List RecipeView) (acc : List Requirement),
      (acc.map (fun e => e.ingredient_id)).Nodup →
      ((rows.foldl (fun reqs r => StockManager.addRequirement reqs r q) acc).map
        (fun e => e.ingredient_id)).Nodup := by
  intro rows
  induction rows with
  | nil => intro acc h; exact h
  | cons a rows ih =>
      intro acc h
      exact ih _ (nodup_ids_addRequirement _ _ _ h)

theorem nodup_ids_collectRequirements (s : DBState) (items : List OrderItem) :
    ((StockManager.collectRequirements s items).map (fun e => e.ingredient_id)).Nodup := by
  unfold StockManager.collectRequirements
  have : ∀ (its : List OrderItem) (acc : List Requirement),
      (acc.map (fun e => e.ingredient_id)).Nodup →
      ((its.foldl (fun reqs item =>
          (Recipe.findByProductId s item.product_id).foldl
            (fun reqs r => StockManager.addRequirement reqs r item.quantity) reqs) acc).map
        (fun e => e.ingredient_id)).Nodup := by
    intro its
    induction its with
    | nil => intro acc h; exact h
    | cons it its ih =>
        intro acc h
        exact ih _ (nodup_ids_rowsFold _ _ _ h)
  exact this items [] (by simp)

/-- Invariant preservation through the inner requirement fold, for any row
list whose entries come from existing ingredients. -/
theorem reqInv_rowsFold (s : DBState) (q : ℚ) :
    ∀ (rows : List RecipeView),
      (∀ v ∈ rows, ∃ ing,
        findIngredient s.ingredients v.ingredient_id = some ing ∧
        v.ingredient_name = ing.name ∧ v.unit = ing.unit ∧
        v.stock_quantity = ing.stock_quantity) →
      ∀ (acc : List Requirement), (∀ e ∈ acc, ReqInv s e) →
      ∀ e ∈ rows.foldl (fun reqs r => StockManager.addRequirement reqs r q) acc,
        ReqInv s e := by
  intro rows
  induction rows with
  | nil => intro _ acc h; exact h
  | cons v rows ih =>
      intro hview acc h
      rw [List.foldl_cons]
      apply ih (fun x hx => hview x (by simp [hx]))
      intro e he
      rcases mem_addRequirement he with ⟨e₀, he₀, hid, hname, hunit, hstock⟩ | hnew
      · obtain ⟨ing, hfind, hcs, hn, hu⟩ := h e₀ he₀
        exact ⟨ing, by rw [hid]; exact hfind, by rw [hstock]; exact hcs,
          by rw [hname]; exact hn, by rw [hunit]; exact hu⟩
      · obtain ⟨hid, hname, hunit, hstock⟩ := hnew
        obtain ⟨ing, hfind, hn, hu, hs⟩ := hview v (by simp)
        exact ⟨ing, by rw [hid]; exact hfind, by rw [hstock]; exact hs,
          by rw [hname]; exact hn, by rw [hunit]; exact hu⟩

/-- Every collected requirement matches an existing ingredient row, with the
snapshot fields taken from it. -/
theorem reqInv_collectRequirements (s : DBState) (items : List OrderItem) :
    ∀ e ∈ StockManager.collectRequirements s items, ReqInv s e := by
  unfold StockManager.collectRequirements
  have hrows : ∀ (pid : Nat) (q : ℚ) (acc : List Requirement),
      (∀ e ∈ acc, ReqInv s e) →
      ∀ e ∈ (Recipe.findByProductId s pid).foldl
          (fun reqs r => StockManager.addRequirement reqs r q) acc, ReqInv s e := by
    intro pid q acc h
    apply reqInv_rowsFold s q _ _ acc h
    intro v hv
    obtain ⟨-, -, -, -, -, ing, hfind, hname, hunit, -, hstock⟩ := mem_findByProductId hv
    exact ⟨ing, hfind, hname, hunit, hstock⟩
  have : ∀ (its : List OrderItem) (acc : List Requirement),
      (∀ e ∈ acc, ReqInv s e) →
      ∀ e ∈ its.foldl (fun reqs item =>
          (Recipe.findByProductId s item.product_id).foldl
            (fun reqs r => StockManager.addRequirement reqs r item.quantity) reqs) acc,
        ReqInv s e := by
    intro its
    induction its with
    | nil => intro acc h; exact h
    | cons it its ih =>
        intro acc h
        exact ih _ (hrows it.product_id it.quantity acc h)
  exact this items [] (by intro e he; cases he)

/-- The recorded quantity of every collected requirement is the aggregate
requirement of its ingredient. -/
theorem qty_of_mem_collectRequirements {s : DBState} {items : List OrderItem}
    {e : Requirement} (he : e ∈ StockManager.collectRequirements s items) :
    e.quantity_needed = requiredFor s items e.ingredient_id := by
  have hfind := find?_self_of_nodup (fun x => x.ingredient_id)
    (StockManager.collectRequirements s items) e
    (nodup_ids_collectRequirements s items) he
  have := reqQty_collectRequirements s items e.ingredient_id
  rw [reqQty, hfind] at this
  simpa using this

/-- `Recipe.findByProductId` only reads recipes and ingredients. -/
theorem findByProductId_congr {s t : DBState} (hi : s.ingredients = t.ingredients)
    (hr : s.recipes = t.recipes) :
    Recipe.findByProductId s = Recipe.findByProductId t := by
  funext pid
  unfold Recipe.findByProductId
  rw [hi, hr]

theorem collectRequirements_congr {s t : DBState} (hi : s.ingredients = t.ingredients)
    (hr : s.recipes = t.recipes) :
    StockManager.collectRequirements s = StockManager.collectRequirements t := by
  funext items
  unfold StockManager.collectRequirements
  rw [findByProductId_congr hi hr]

theorem checkOrderStock_congr {s t : DBState} (hi : s.ingredients = t.ingredients)
    (hr : s.recipes = t.recipes) :
    StockManager.checkOrderStock s = StockManager.checkOrderStock t := by
  funext items
  unfold StockManager.checkOrderStock
  rw [collectRequirements_congr hi hr]

theorem requiredFor_congr_full {s t : DBState} (hi : s.ingredients = t.ingredients)
    (hr : s.recipes = t.recipes) : requiredFor s = requiredFor t := by
  funext items j
  unfold requiredFor orderRows
  rw [findByProductId_congr hi hr]

/-- `canFulfill` holds exactly when every collected requirement is within the
snapshot stock. -/
theorem canFulfill_iff (s : DBState) (items : List OrderItem) :
    (StockManager.checkOrderStock s items).canFulfill = true ↔
      ∀ e ∈ StockManager.collectRequirements s items,
        e.quantity_needed ≤ e.current_stock := by
  unfold StockManager.checkOrderStock StockManager.shortagesOf
  simp only [List.isEmpty_iff, List.map_eq_nil_iff, List.filter_eq_nil_iff]
  constructor
  · intro h e he
    have := h e he
    simpa using this
  · intro h e he
    simpa using h e he

/-! ## Deduction-loop characterization -/

theorem deductLoop_ok (reqs : List Requirement) :
    ∀ (s : DBState),
      (∀ e ∈ reqs, (findIngredient s.ingredients e.ingredient_id).isSome = true) →
      ((reqs.map (fun e => e.ingredient_id)).Nodup) →
      ∃ s', StockManager.deductLoop s reqs = .ok s' ∧
        s'.products = s.products ∧ s'.recipes = s.recipes ∧ s'.orders = s.orders ∧
        s'.movements = s.movements ∧ s'.revisions = s.revisions ∧
        s'.nextOrderId = s.nextOrderId ∧
        s'.ingredients.map ingKey = s.ingredients.map ingKey ∧
        ∀ k, stockOf s'.ingredients k =
          match reqs.find? (fun e => e.ingredient_id == k) with
          | some e => (stockOf s.ingredients k).map
              (fun c => max 0 (c - e.quantity_needed))
          | none => stockOf s.ingredients k := by
  induction reqs with
  | nil =>
      intro s _ _
      exact ⟨s, rfl, rfl, rfl, rfl, rfl, rfl, rfl, rfl, fun k => by simp⟩
  | cons req rest ih =>
      intro s hsome hnd
      obtain ⟨s₁, h₁⟩ := adjustStock_ok_of_isSome (-req.quantity_needed)
        (hsome req (by simp))
      have hkey₁ := adjustStock_ingKey h₁
      have hfr₁ := adjustStock_frame h₁
      have hst₁ := adjustStock_stockOf h₁
      simp only [List.map_cons, List.nodup_cons] at hnd
      have hsome' : ∀ e ∈ rest,
          (findIngredient s₁.ingredients e.ingredient_id).isSome = true := by
        intro e he
        rw [isSome_of_congr_key hkey₁]
        exact hsome e (by simp [he])
      obtain ⟨s', hloop, hq1, hq2, hq3, hq4, hq5, hq6, hkey', hst'⟩ := ih s₁ hsome' hnd.2
      refine ⟨s', ?_, ?_, ?_, ?_, ?_, ?_, ?_, ?_, ?_⟩
      · rw [StockManager.deductLoop, h₁]
        exact hloop
      · rw [hq1, hfr₁.1]
      · rw [hq2, hfr₁.2.1]
      · rw [hq3, hfr₁.2.2.1]
      · rw [hq4, hfr₁.2.2.2.1]
      · rw [hq5, hfr₁.2.2.2.2.1]
      · rw [hq6, hfr₁.2.2.2.2.2]
      · rw [hkey', hkey₁]
      · intro k
        by_cases hk : req.ingredient_id = k
        · have hnone : rest.find? (fun e => e.ingredient_id == k) = none := by
            rw [List.find?_eq_none]
            intro e he hpe
            apply hnd.1
            rw [List.mem_map]
            exact ⟨e, he, by rw [hk]; exact Nat.eq_of_beq_eq_true (by simpa using hpe)⟩
          rw [List.find?_cons_of_pos _ (by simpa using hk), hst' k, hnone,
            hst₁ k, if_pos hk.symm, hk]
          cases stockOf s.ingredients k with
          | none => rfl
          | some c => simp [sub_eq_add_neg]
        · rw [List.find?_cons_of_neg _ (by simpa using hk), hst' k, hst₁ k,
            if_neg (fun hkk => hk hkk.symm)]

/-- `deductOrderStock` on a passing sufficiency check: the deduction
succeeds, every ingredient loses exactly its aggregate requirement, one
"out" ledger entry per aggregate requirement is appended, and nothing else
changes. -/
theorem deductOrderStock_ok {s : DBState} (oid : Nat) (items : List OrderItem)
    (hcan : (StockManager.checkOrderStock s items).canFulfill = true) :
    ∃ s', StockManager.deductOrderStock s oid items = .ok s' ∧
      s'.products = s.products ∧ s'.recipes = s.recipes ∧ s'.orders = s.orders ∧
      s'.revisions = s.revisions ∧ s'.nextOrderId = s.nextOrderId ∧
      s'.movements = s.movements ++
        (StockManager.collectRequirements s items).map (StockManager.deductMovement oid) ∧
      s'.ingredients.map ingKey = s.ingredients.map ingKey ∧
      ∀ k, stockOf s'.ingredients k =
        (stockOf s.ingredients k).map (fun c => c - requiredFor s items k) := by
  have hsome : ∀ e ∈ StockManager.collectRequirements s items,
      (findIngredient s.ingredients e.ingredient_id).isSome = true := by
    intro e he
    obtain ⟨ing, hfind, -⟩ := reqInv_collectRequirements s items e he
    rw [hfind]
    rfl
  obtain ⟨s₁, hloop, hp, hr, ho, hm, hv, hn, hkey, hst⟩ :=
    deductLoop_ok (StockManager.collectRequirements s items) s hsome
      (nodup_ids_collectRequirements s items)
  have hsts : ∀ k, stockOf s₁.ingredients k =
      (stockOf s.ingredients k).map (fun c => c - requiredFor s items k) := by
    intro k
    have hstk := hst k
    cases hfind : (StockManager.collectRequirements s items).find?
        (fun e => e.ingredient_id == k) with
    | some e =>
        rw [hfind] at hstk
        have hmem := List.mem_of_find?_eq_some hfind
        have hid : e.ingredient_id = k := by simpa using List.find?_some hfind
        have hqty := qty_of_mem_collectRequirements hmem
        obtain ⟨ing, hfi, hcs, -, -⟩ := reqInv_collectRequirements s items e hmem
        have hle : e.quantity_needed ≤ e.current_stock :=
          (canFulfill_iff s items).mp hcan e hmem
        have hsk : stockOf s.ingredients k = some ing.stock_quantity := by
          unfold stockOf
          rw [← hid, hfi]
          rfl
        rw [hstk, hsk]
        have hmax : max 0 (ing.stock_quantity - e.quantity_needed) =
            ing.stock_quantity - e.quantity_needed := by
          apply max_eq_right
          rw [sub_nonneg]
          calc e.quantity_needed ≤ e.current_stock := hle
            _ = ing.stock_quantity := hcs
        simp only [Option.map_some']
        rw [hmax, hqty, hid]
    | none =>
        rw [hfind] at hstk
        have hzero : requiredFor s items k = 0 := by
          apply requiredFor_eq_zero_of_not_touched
          have hany : (StockManager.collectRequirements s items).any
              (fun e => e.ingredient_id == k) = false := by
            rw [List.find?_eq_none] at hfind
            rw [List.any_eq_false]
            exact fun e he => hfind e he
          have := any_id_collectFold s k items []
          rw [StockManager.collectRequirements] at hany
          rw [hany] at this
          simpa using this.symm
        rw [hstk, hzero]
        cases stockOf s.ingredients k with
        | none => rfl
        | some c => simp
  refine ⟨{ s₁ with movements := s₁.movements ++
      (StockManager.collectRequirements s items).map (StockManager.deductMovement oid) },
    ?_, hp, hr, ho, hv, hn, by rw [hm], hkey, hsts⟩
  show StockManager.deductOrderStock s oid items = _
  unfold StockManager.deductOrderStock
  simp only [hcan, if_true]
  have hreq : (StockManager.checkOrderStock s items).requirements =
      StockManager.collectRequirements s items := rfl
  rw [hreq, hloop]

/-- `deductOrderStock` on a failing sufficiency check throws
`INSUFFICIENT_STOCK` with the itemized shortage list, before any write. -/
theorem deductOrderStock_insufficient {s : DBState} (oid : Nat)
    (items : List OrderItem)
    (hcan : (StockManager.checkOrderStock s items).canFulfill = false) :
    StockManager.deductOrderStock s oid items =
      .error (ApiErr.badRequest "Tidak bisa membuat order: stok tidak cukup"
        "INSUFFICIENT_STOCK" (StockManager.checkOrderStock s items).shortages) := by
  unfold StockManager.deductOrderStock
  simp only [hcan]
  rfl

/-! ## Return-loop characterization -/

theorem returnRowsLoop_ok (oid : Nat) (q : ℚ) :
    ∀ (rows : List RecipeView) (s : DBState) (rets : List StockManager.ReturnEntry)
      (movs : List StockMovement),
      (∀ x ∈ s.ingredients, 0 ≤ x.stock_quantity) →
      (∀ r ∈ rows, 0 ≤ r.quantity_needed * q) →
      (∀ r ∈ rows, (findIngredient s.ingredients r.ingredient_id).isSome = true) →
      ∃ s' rets' movs',
        StockManager.returnRowsLoop oid q rows s rets movs = .ok (s', rets', movs') ∧
        s'.products = s.products ∧ s'.recipes = s.recipes ∧ s'.orders = s.orders ∧
        s'.movements = s.movements ∧ s'.revisions = s.revisions ∧
        s'.nextOrderId = s.nextOrderId ∧
        s'.ingredients.map ingKey = s.ingredients.map ingKey ∧
        (∀ x ∈ s'.ingredients, 0 ≤ x.stock_quantity) ∧
        (∃ ext, movs' = movs ++ ext) ∧
        ∀ k, stockOf s'.ingredients k =
          (stockOf s.ingredients k).map (fun c => c + rowSum rows q k) := by
  intro rows
  induction rows with
  | nil =>
      intro s rets movs hnn _ _
      refine ⟨s, rets, movs, rfl, rfl, rfl, rfl, rfl, rfl, rfl, rfl, hnn,
        ⟨[], by simp⟩, ?_⟩
      intro k
      cases stockOf s.ingredients k with
      | none => rfl
      | some c => simp [rowSum]
  | cons r rest ih =>
      intro s rets movs hnn hamt hsome
      obtain ⟨s₁, h₁⟩ := adjustStock_ok_of_isSome (r.quantity_needed * q)
        (hsome r (by simp))
      have hkey₁ := adjustStock_ingKey h₁
      have hfr₁ := adjustStock_frame h₁
      have hst₁ := adjustStock_stockOf h₁
      have hnn₁ : ∀ x ∈ s₁.ingredients, 0 ≤ x.stock_quantity :=
        adjustStock_nonneg h₁ hnn
      have hamt' : ∀ x ∈ rest, 0 ≤ x.quantity_needed * q :=
        fun x hx => hamt x (by simp [hx])
      have hsome' : ∀ x ∈ rest,
          (findIngredient s₁.ingredients x.ingredient_id).isSome = true := by
        intro x hx
        rw [isSome_of_congr_key hkey₁]
        exact hsome x (by simp [hx])
      -- stock of the adjusted ingredient before the adjustment
      obtain ⟨cur, hcur, -⟩ := adjustStock_ok_inv h₁
      have hcur_nn : 0 ≤ cur.stock_quantity := hnn cur (mem_of_findIngredient hcur)
      have hst₁' : ∀ k, stockOf s₁.ingredients k =
          (stockOf s.ingredients k).map
            (fun c => c + (if r.ingredient_id == k then r.quantity_needed * q else 0)) := by
        intro k
        rw [hst₁ k]
        by_cases hk : k = r.ingredient_id
        · subst hk
          unfold stockOf
          rw [hcur]
          simp only [Option.map_some', beq_self_eq_true, if_pos rfl, if_true]
          have : max 0 (cur.stock_quantity + r.quantity_needed * q) =
              cur.stock_quantity + r.quantity_needed * q := by
            apply max_eq_right
            exact add_nonneg hcur_nn (hamt r (by simp))
          rw [this]
        · rw [if_neg hk]
          have hbeq : (r.ingredient_id == k) = false := by
            simpa using fun h => hk h.symm
          rw [hbeq]
          cases stockOf s.ingredients k with
          | none => rfl
          | some c => simp
      have hcomb : ∀ (rets₂ : List StockManager.ReturnEntry)
          (movs₂ : List StockMovement), (∃ pre, movs₂ = movs ++ pre) →
          ∃ s' rets' movs',
            StockManager.returnRowsLoop oid q rest s₁ rets₂ movs₂ = .ok (s', rets', movs') ∧
            s'.products = s.products ∧ s'.recipes = s.recipes ∧ s'.orders = s.orders ∧
            s'.movements = s.movements ∧ s'.revisions = s.revisions ∧
            s'.nextOrderId = s.nextOrderId ∧
            s'.ingredients.map ingKey = s.ingredients.map ingKey ∧
            (∀ x ∈ s'.ingredients, 0 ≤ x.stock_quantity) ∧
            (∃ ext, movs' = movs ++ ext) ∧
            ∀ k, stockOf s'.ingredients k =
              (stockOf s.ingredients k).map (fun c => c + rowSum (r :: rest) q k) := by
        intro rets₂ movs₂ hpre
        obtain ⟨s', rets', movs', hrun, hp, hr2, ho, hm, hv, hn, hkey, hnneg, hext, hstock⟩ :=
          ih s₁ rets₂ movs₂ hnn₁ hamt' hsome'
        obtain ⟨pre, rfl⟩ := hpre
        obtain ⟨ext, hext⟩ := hext
        refine ⟨s', rets', movs', hrun, hp.trans hfr₁.1, hr2.trans hfr₁.2.1,
          ho.trans hfr₁.2.2.1, hm.trans hfr₁.2.2.2.1, hv.trans hfr₁.2.2.2.2.1,
          hn.trans hfr₁.2.2.2.2.2, hkey.trans hkey₁, hnneg,
          ⟨pre ++ ext, by rw [hext, List.append_assoc]⟩, ?_⟩
        intro k
        rw [hstock k, hst₁' k]
        have hsum : rowSum (r :: rest) q k =
            (if r.ingredient_id == k then r.quantity_needed * q else 0) +
              rowSum rest q k := by
          unfold rowSum
          rw [List.filter_cons]
          by_cases hk : (r.ingredient_id == k) = true
          · rw [if_pos hk, hk]
            simp [rowSum]
          · rw [if_neg hk]
            simp only [Bool.not_eq_true] at hk
            rw [hk]
            simp [rowSum]
        cases stockOf s.ingredients k with
        | none => rfl
        | some c => simp [hsum, add_assoc]
      rw [StockManager.returnRowsLoop]
      rw [h₁]
      by_cases hmem : rets.any (fun e => e.ingredient_id == r.ingredient_id) = true
      · simp only [hmem, if_true]
        exact hcomb _ movs ⟨[], by simp⟩
      · simp only [hmem, if_false, Bool.false_eq_true]
        exact hcomb _ _ ⟨_, rfl⟩

theorem returnItemsLoop_ok (oid : Nat) :
    ∀ (items : List OrderItem) (s : DBState) (rets : List StockManager.ReturnEntry)
      (movs : List StockMovement),
      (∀ x ∈ s.ingredients, 0 ≤ x.stock_quantity) →
      (∀ rr ∈ s.recipes, 0 ≤ rr.quantity_needed) →
      (∀ it ∈ items, 0 ≤ it.quantity) →
      ∃ s' rets' movs',
        StockManager.returnItemsLoop oid items s rets movs = .ok (s', rets', movs') ∧
        s'.products = s.products ∧ s'.recipes = s.recipes ∧ s'.orders = s.orders ∧
        s'.movements = s.movements ∧ s'.revisions = s.revisions ∧
        s'.nextOrderId = s.nextOrderId ∧
        s'.ingredients.map ingKey = s.ingredients.map ingKey ∧
        (∀ x ∈ s'.ingredients, 0 ≤ x.stock_quantity) ∧
        (∃ ext, movs' = movs ++ ext) ∧
        ∀ k, stockOf s'.ingredients k =
          (stockOf s.ingredients k).map (fun c => c + requiredFor s items k) := by
  intro items
  induction items with
  | nil =>
      intro s rets movs hnn _ _
      refine ⟨s, rets, movs, rfl, rfl, rfl, rfl, rfl, rfl, rfl, rfl, hnn,
        ⟨[], by simp⟩, ?_⟩
      intro k
      rw [requiredFor_nil]
      cases stockOf s.ingredients k with
      | none => rfl
      | some c => simp
  | cons it rest ih =>
      intro s rets movs hnn hrec hit
      have hamt : ∀ v ∈ Recipe.findByProductId s it.product_id,
          0 ≤ v.quantity_needed * it.quantity := by
        intro v hv
        obtain ⟨rr, hrr, -, -, hqn, -⟩ := mem_findByProductId hv
        exact mul_nonneg (hqn ▸ hrec rr hrr) (hit it (by simp))
      have hsome : ∀ v ∈ Recipe.findByProductId s it.product_id,
          (findIngredient s.ingredients v.ingredient_id).isSome = true := by
        intro v hv
        obtain ⟨-, -, -, -, -, ing, hfind, -⟩ := mem_findByProductId hv
        rw [hfind]
        rfl
      obtain ⟨s₁, rets₁, movs₁, hrun₁, hp₁, hr₁, ho₁, hm₁, hv₁, hn₁, hkey₁, hnn₁,
        hext₁, hst₁⟩ :=
        returnRowsLoop_ok oid it.quantity (Recipe.findByProductId s it.product_id)
          s rets movs hnn hamt hsome
      have hrec₁ : ∀ rr ∈ s₁.recipes, 0 ≤ rr.quantity_needed := by
        rw [hr₁]; exact hrec
      obtain ⟨s', rets', movs', hrun', hp', hr', ho', hm', hv', hn', hkey', hnn',
        hext', hst'⟩ :=
        ih s₁ rets₁ movs₁ hnn₁ hrec₁ (fun x hx => hit x (by simp [hx]))
      have hreq : requiredFor s₁ rest = requiredFor s rest :=
        requiredFor_congr ⟨hr₁, hkey₁⟩ rest
      refine ⟨s', rets', movs', ?_, hp'.trans hp₁, hr'.trans hr₁, ho'.trans ho₁,
        hm'.trans hm₁, hv'.trans hv₁, hn'.trans hn₁, hkey'.trans hkey₁, hnn', ?_, ?_⟩
      · rw [StockManager.returnItemsLoop, hrun₁]
        exact hrun'
      · obtain ⟨e₁, he₁⟩ := hext₁
        obtain ⟨e₂, he₂⟩ := hext'
        exact ⟨e₁ ++ e₂, by rw [he₂, he₁, List.append_assoc]⟩
      · intro k
        rw [hst' k, hst₁ k, hreq, requiredFor_cons]
        cases stockOf s.ingredients k with
        | none => rfl
        | some c => simp [add_assoc]

/-- `returnOrderStock` on a well-formed state: always succeeds, credits every
ingredient with exactly the aggregate recipe quantity of the items, appends
its accumulated "in" ledger entries after the existing ledger, and changes
nothing else. -/
theorem returnOrderStock_ok {s : DBState} (oid : Nat) (items : List OrderItem)
    (hnn : ∀ x ∈ s.ingredients, 0 ≤ x.stock_quantity)
    (hrec : ∀ rr ∈ s.recipes, 0 ≤ rr.quantity_needed)
    (hit : ∀ it ∈ items, 0 ≤ it.quantity) :
    ∃ s' ext, StockManager.returnOrderStock s oid items = .ok s' ∧
      s'.products = s.products ∧ s'.recipes = s.recipes ∧ s'.orders = s.orders ∧
      s'.revisions = s.revisions ∧ s'.nextOrderId = s.nextOrderId ∧
      s'.movements = s.movements ++ ext ∧
      s'.ingredients.map ingKey = s.ingredients.map ingKey ∧
      (∀ x ∈ s'.ingredients, 0 ≤ x.stock_quantity) ∧
      ∀ k, stockOf s'.ingredients k =
        (stockOf s.ingredients k).map (fun c => c + requiredFor s items k) := by
  obtain ⟨s₁, rets₁, movs₁, hrun, hp, hr, ho, hm, hv, hn, hkey, hnn₁, hext, hst⟩ :=
    returnItemsLoop_ok oid items s [] [] hnn hrec hit
  obtain ⟨ext, hext⟩ := hext
  refine ⟨{ s₁ with movements := s₁.movements ++ movs₁ }, movs₁, ?_, hp, hr, ho,
    hv, hn, by rw [hm], hkey, hnn₁, hst⟩
  unfold StockManager.returnOrderStock
  rw [hrun]

/-! ## Order-service lemmas -/

theorem priceItems_nonneg {s : DBState} :
    ∀ {req : List ItemRequest} {items : List OrderItem},
      OrderService.priceItems s req = .ok items →
      (∀ it ∈ req, 0 ≤ it.quantity) → ∀ x ∈ items, 0 ≤ x.quantity := by
  intro req
  induction req with
  | nil =>
      intro items h _
      rw [OrderService.priceItems] at h
      simp only [Except.ok.injEq] at h
      subst h
      intro x hx
      cases hx
  | cons item rest ih =>
      intro items h hq
      rw [OrderService.priceItems] at h
      cases hfp : Product.findById s item.product_id with
      | none => rw [hfp] at h; simp at h
      | some product =>
          by_cases hav : product.is_available = true
          · simp only [hfp, hav, Bool.not_true, Bool.false_eq_true, if_false] at h
            cases hrest : OrderService.priceItems s rest with
            | error e => rw [hrest] at h; simp at h
            | ok tail =>
                rw [hrest] at h
                simp only [Except.ok.injEq] at h
                subst h
                intro x hx
                rcases List.mem_cons.mp hx with rfl | hx
                · exact hq item (by simp)
                · exact ih hrest (fun y hy => hq y (by simp [hy])) x hx
          · simp only [Bool.not_eq_true] at hav
            simp [hfp, hav] at h

theorem priceItemsUpdate_nonneg {s : DBState} :
    ∀ {req : List ItemRequest} {items : List OrderItem},
      OrderService.priceItemsUpdate s req = .ok items →
      (∀ it ∈ req, 0 ≤ it.quantity) → ∀ x ∈ items, 0 ≤ x.quantity := by
  intro req
  induction req with
  | nil =>
      intro items h _
      rw [OrderService.priceItemsUpdate] at h
      simp only [Except.ok.injEq] at h
      subst h
      intro x hx
      cases hx
  | cons item rest ih =>
      intro items h hq
      rw [OrderService.priceItemsUpdate] at h
      cases hfp : Product.findById s item.product_id with
      | none => rw [hfp] at h; simp at h
      | some product =>
          simp only [hfp] at h
          cases hrest : OrderService.priceItemsUpdate s rest with
          | error e => rw [hrest] at h; simp at h
          | ok tail =>
              rw [hrest] at h
              simp only [Except.ok.injEq] at h
              subst h
              intro x hx
              rcases List.mem_cons.mp hx with rfl | hx
              · exact hq item (by simp)
              · exact ih hrest (fun y hy => hq y (by simp [hy])) x hx

/-- Inversion of a successful `createOrder`: the lines priced against the
initial state, the sufficiency check passed, the order was appended with a
fresh id, stock fell by exactly the aggregate requirements, and one "out"
ledger entry per aggregate requirement was appended. -/
theorem createOrder_ok_inv {s s' : DBState} {cid : Nat} {req : List ItemRequest}
    {notes : String} {o : Order}
    (h : OrderService.createOrder s cid req notes = (s', .ok o)) :
    ∃ items, OrderService.priceItems s req = .ok items ∧
      (StockManager.checkOrderStock s items).canFulfill = true ∧
      o.id = s.nextOrderId ∧ o.items = items ∧ o.status = .pending ∧
      o.customer_id = cid ∧
      s'.products = s.products ∧ s'.recipes = s.recipes ∧
      s'.orders = s.orders ++ [o] ∧ s'.revisions = s.revisions ∧
      s'.nextOrderId = s.nextOrderId + 1 ∧
      s'.movements = s.movements ++
        (StockManager.collectRequirements s items).map (StockManager.deductMovement o.id) ∧
      s'.ingredients.map ingKey = s.ingredients.map ingKey ∧
      ∀ k, stockOf s'.ingredients k =
        (stockOf s.ingredients k).map (fun c => c - requiredFor s items k) := by
  unfold OrderService.createOrder at h
  cases hpi : OrderService.priceItems s req with
  | error e => rw [hpi] at h; simp at h
  | ok items =>
      rw [hpi] at h
      by_cases hcan : (StockManager.checkOrderStock s items).canFulfill = true
      · simp only [hcan, Bool.not_true, Bool.false_eq_true, if_false] at h
        have hing₁ : (Order.create s cid items notes).1.ingredients = s.ingredients := rfl
        have hrec₁ : (Order.create s cid items notes).1.recipes = s.recipes := rfl
        have hcan₁ : (StockManager.checkOrderStock
            (Order.create s cid items notes).1 items).canFulfill = true := by
          rw [checkOrderStock_congr (t := s) hing₁ hrec₁]
          exact hcan
        obtain ⟨s₂, hded, hp₂, hr₂, ho₂, hv₂, hn₂, hm₂, hkey₂, hst₂⟩ :=
          deductOrderStock_ok (Order.create s cid items notes).2.id items hcan₁
        rw [hded] at h
        simp only [Prod.mk.injEq, Except.ok.injEq] at h
        obtain ⟨rfl, rfl⟩ := h
        refine ⟨items, rfl, hcan, rfl, rfl, rfl, rfl, ?_, ?_, ?_, ?_, ?_, ?_, ?_, ?_⟩
        · rw [hp₂]; rfl
        · rw [hr₂]; rfl
        · rw [ho₂]; rfl
        · rw [hv₂]; rfl
        · rw [hn₂]; rfl
        · rw [hm₂, collectRequirements_congr (t := s) hing₁ hrec₁]; rfl
        · rw [hkey₂]; rw [hing₁]
        · intro k
          rw [hst₂ k, requiredFor_congr_full (t := s) hing₁ hrec₁, hing₁]
      · simp only [Bool.not_eq_true] at hcan
        simp [hcan] at h

/-- `createOrder` on a failing sufficiency check: the typed error carries the
itemized shortage list and the state is left untouched. -/
theorem createOrder_insufficient {s : DBState} (cid : Nat) {req : List ItemRequest}
    (notes : String) {items : List OrderItem}
    (hpi : OrderService.priceItems s req = .ok items)
    (hcan : (StockManager.checkOrderStock s items).canFulfill = false) :
    OrderService.createOrder s cid req notes =
      (s, .error (ApiErr.badRequest "Tidak bisa membuat order: stok bahan baku tidak cukup"
        "INSUFFICIENT_STOCK" (StockManager.checkOrderStock s items).shortages)) := by
  unfold OrderService.createOrder
  rw [hpi]
  simp [hcan]

/-! ## Unconditional non-negativity preservation -/

theorem deductLoop_nonneg (reqs : List Requirement) :
    ∀ {s s' : DBState}, StockManager.deductLoop s reqs = .ok s' →
      (∀ x ∈ s.ingredients, 0 ≤ x.stock_quantity) →
      ∀ x ∈ s'.ingredients, 0 ≤ x.stock_quantity := by
  induction reqs with
  | nil =>
      intro s s' h hnn
      rw [StockManager.deductLoop] at h
      simp only [Except.ok.injEq] at h
      subst h
      exact hnn
  | cons req rest ih =>
      intro s s' h hnn
      rw [StockManager.deductLoop] at h
      cases ha : Ingredient.adjustStock s req.ingredient_id (-req.quantity_needed) with
      | error e => rw [ha] at h; simp at h
      | ok s₁ =>
          rw [ha] at h
          exact ih h (adjustStock_nonneg ha hnn)

theorem deductOrderStock_nonneg {s s' : DBState} {oid : Nat} {items : List OrderItem}
    (h : StockManager.deductOrderStock s oid items = .ok s')
    (hnn : ∀ x ∈ s.ingredients, 0 ≤ x.stock_quantity) :
    ∀ x ∈ s'.ingredients, 0 ≤ x.stock_quantity := by
  unfold StockManager.deductOrderStock at h
  by_cases hcan : (StockManager.checkOrderStock s items).canFulfill = true
  · simp only [hcan, if_true] at h
    cases hl : StockManager.deductLoop s
        (StockManager.checkOrderStock s items).requirements with
    | error e => rw [hl] at h; simp at h
    | ok s₁ =>
        rw [hl] at h
        simp only [Except.ok.injEq] at h
        subst h
        have hres := deductLoop_nonneg _ hl hnn
        exact hres
  · simp only [Bool.not_eq_true] at hcan
    simp [hcan] at h

theorem returnRowsLoop_nonneg (oid : Nat) (q : ℚ) :
    ∀ (rows : List RecipeView) {s s' : DBState}
      {rets rets' : List StockManager.ReturnEntry}
      {movs movs' : List StockMovement},
      StockManager.returnRowsLoop oid q rows s rets movs = .ok (s', rets', movs') →
      (∀ x ∈ s.ingredients, 0 ≤ x.stock_quantity) →
      ∀ x ∈ s'.ingredients, 0 ≤ x.stock_quantity := by
  intro rows
  induction rows with
  | nil =>
      intro s s' rets rets' movs movs' h hnn
      rw [StockManager.returnRowsLoop] at h
      simp only [Except.ok.injEq, Prod.mk.injEq] at h
      obtain ⟨rfl, -⟩ := h
      exact hnn
  | cons r rest ih =>
      intro s s' rets rets' movs movs' h hnn
      rw [StockManager.returnRowsLoop] at h
      cases ha : Ingredient.adjustStock s r.ingredient_id (r.quantity_needed * q) with
      | error e => rw [ha] at h; simp at h
      | ok s₁ =>
          rw [ha] at h
          by_cases hmem : rets.any (fun e => e.ingredient_id == r.ingredient_id) = true
          · simp only [hmem, if_true] at h
            exact ih h (adjustStock_nonneg ha hnn)
          · simp only [Bool.not_eq_true] at hmem
            simp only [hmem, Bool.false_eq_true, if_false] at h
            exact ih h (adjustStock_nonneg ha hnn)

theorem returnItemsLoop_nonneg (oid : Nat) :
    ∀ (items : List OrderItem) {s s' : DBState}
      {rets rets' : List StockManager.ReturnEntry}
      {movs movs' : List StockMovement},
      StockManager.returnItemsLoop oid items s rets movs = .ok (s', rets', movs') →
      (∀ x ∈ s.ingredients, 0 ≤ x.stock_quantity) →
      ∀ x ∈ s'.ingredients, 0 ≤ x.stock_quantity := by
  intro items
  induction items with
  | nil =>
      intro s s' rets rets' movs movs' h hnn
      rw [StockManager.returnItemsLoop] at h
      simp only [Except.ok.injEq, Prod.mk.injEq] at h
      obtain ⟨rfl, -⟩ := h
      exact hnn
  | cons it rest ih =>
      intro s s' rets rets' movs movs' h hnn
      rw [StockManager.returnItemsLoop] at h
      cases hr : StockManager.returnRowsLoop oid it.quantity
          (Recipe.findByProductId s it.product_id) s rets movs with
      | error e => rw [hr] at h; simp at h
      | ok out =>
          rw [hr] at h
          obtain ⟨s₁, rets₁, movs₁⟩ := out
          exact ih h (returnRowsLoop_nonneg oid it.quantity _ hr hnn)

theorem returnOrderStock_nonneg {s s' : DBState} {oid : Nat} {items : List OrderItem}
    (h : StockManager.returnOrderStock s oid items = .ok s')
    (hnn : ∀ x ∈ s.ingredients, 0 ≤ x.stock_quantity) :
    ∀ x ∈ s'.ingredients, 0 ≤ x.stock_quantity := by
  unfold StockManager.returnOrderStock at h
  cases hl : StockManager.returnItemsLoop oid items s [] [] with
  | error e => rw [hl] at h; simp at h
  | ok out =>
      rw [hl] at h
      obtain ⟨s₁, rets₁, movs₁⟩ := out
      simp only [Except.ok.injEq] at h
      subst h
      have hres := returnItemsLoop_nonneg oid items hl hnn
      exact hres

/-! ## Order-model frame lemmas -/

theorem Order.update_frame (s : DBState) (id : Nat) (ni : Option (List OrderItem))
    (nn : Option String) :
    (Order.update s id ni nn).ingredients = s.ingredients ∧
    (Order.update s id ni nn).recipes = s.recipes ∧
    (Order.update s id ni nn).products = s.products ∧
    (Order.update s id ni nn).movements = s.movements ∧
    (Order.update s id ni nn).revisions = s.revisions ∧
    (Order.update s id ni nn).nextOrderId = s.nextOrderId := by
  unfold Order.update
  cases nn <;> cases ni <;> exact ⟨rfl, rfl, rfl, rfl, rfl, rfl⟩

theorem Order.createRevision_frame (s : DBState) (oid uid : Nat) (ty notes : String) :
    (Order.createRevision s oid uid ty notes).ingredients = s.ingredients ∧
    (Order.createRevision s oid uid ty notes).recipes = s.recipes ∧
    (Order.createRevision s oid uid ty notes).products = s.products ∧
    (Order.createRevision s oid uid ty notes).movements = s.movements ∧
    (Order.createRevision s oid uid ty notes).orders = s.orders ∧
    (Order.createRevision s oid uid ty notes).nextOrderId = s.nextOrderId :=
  ⟨rfl, rfl, rfl, rfl, rfl, rfl⟩

theorem Order.updateStatus_ok_inv {s s' : DBState} {id : Nat} {st : OrderStatus}
    (h : Order.updateStatus s id st = .ok s') :
    s'.ingredients = s.ingredients ∧ s'.recipes = s.recipes ∧
    s'.products = s.products ∧ s'.movements = s.movements ∧
    s'.revisions = s.revisions ∧ s'.nextOrderId = s.nextOrderId ∧
    s'.orders = s.orders.map (fun o => if o.id = id then { o with status := st } else o) := by
  unfold Order.updateStatus at h
  by_cases hany : s.orders.any (fun o => o.id == id) = true
  · rw [if_pos hany] at h
    simp only [Except.ok.injEq] at h
    subst h
    exact ⟨rfl, rfl, rfl, rfl, rfl, rfl, rfl⟩
  · rw [if_neg hany] at h
    simp at h

theorem Order.updateStatus_ok_of_found {s : DBState} {id : Nat} {order : Order}
    (st : OrderStatus) (hfind : Order.findById s id = some order) :
    ∃ s', Order.updateStatus s id st = .ok s' := by
  unfold Order.updateStatus
  have hany : s.orders.any (fun o => o.id == id) = true := by
    rw [List.any_eq_true]
    have hmem := List.mem_of_find?_eq_some hfind
    have hp := List.find?_some hfind
    exact ⟨order, hmem, hp⟩
  rw [if_pos hany]
  exact ⟨_, rfl⟩

/-! ## Service-level non-negativity -/

theorem createOrder_fst_nonneg (s : DBState) (cid : Nat) (req : List ItemRequest)
    (notes : String) (hnn : ∀ x ∈ s.ingredients, 0 ≤ x.stock_quantity) :
    ∀ x ∈ (OrderService.createOrder s cid req notes).1.ingredients,
      0 ≤ x.stock_quantity := by
  unfold OrderService.createOrder
  cases hpi : OrderService.priceItems s req with
  | error e => exact hnn
  | ok items =>
      by_cases hcan : (StockManager.checkOrderStock s items).canFulfill = true
      · simp only [hcan, Bool.not_true, Bool.false_eq_true, if_false]
        have hing : (Order.create s cid items notes).1.ingredients = s.ingredients := rfl
        cases hd : StockManager.deductOrderStock (Order.create s cid items notes).1
            (Order.create s cid items notes).2.id items with
        | error e =>
            simp only [hd]
            rw [hing]
            exact hnn
        | ok s₂ =>
            simp only [hd]
            exact deductOrderStock_nonneg hd (by rw [hing]; exact hnn)
      · simp only [Bool.not_eq_true] at hcan
        simp only [hcan, Bool.not_false, if_true]
        exact hnn

theorem updateOrder_fst_nonneg (s : DBState) (oid : Nat)
    (ni : Option (List ItemRequest)) (nn : Option String) (uid : Nat)
    (hnn : ∀ x ∈ s.ingredients, 0 ≤ x.stock_quantity) :
    ∀ x ∈ (OrderService.updateOrder s oid ni nn uid).1.ingredients,
      0 ≤ x.stock_quantity := by
  unfold OrderService.updateOrder
  split
  · exact hnn
  next currentOrder hfind =>
    split
    · exact hnn
    next hterm =>
      split
      next =>
        split
        next updated hup =>
          rw [(Order.update_frame s oid none nn).1]
          exact hnn
        next hup =>
          rw [(Order.update_frame s oid none nn).1]
          exact hnn
      next itemsReq =>
        split
        next e hret => exact hnn
        next s₁ hret =>
          have hnn₁ := returnOrderStock_nonneg hret hnn
          split
          next e hpu => exact hnn₁
          next itemsWithPrices hpu =>
            split
            next hcan =>
              split
              next e hd => exact hnn₁
              next s₂ hd => exact deductOrderStock_nonneg hd hnn₁
            next hcan =>
              split
              next e hd =>
                rw [(Order.createRevision_frame s₁ oid uid "update_quantity"
                  "Items updated").1]
                exact hnn₁
              next s₃ hd =>
                have hnn₃ := deductOrderStock_nonneg hd (by
                  rw [(Order.createRevision_frame s₁ oid uid "update_quantity"
                    "Items updated").1]
                  exact hnn₁)
                split
                next updated hf3 =>
                  rw [(Order.update_frame s₃ oid (some itemsWithPrices) nn).1]
                  exact hnn₃
                next hf3 =>
                  rw [(Order.update_frame s₃ oid (some itemsWithPrices) nn).1]
                  exact hnn₃

theorem updateOrderStatus_fst_nonneg (s : DBState) (oid : Nat) (ns : OrderStatus)
    (uid : Nat) (hnn : ∀ x ∈ s.ingredients, 0 ≤ x.stock_quantity) :
    ∀ x ∈ (OrderService.updateOrderStatus s oid ns uid).1.ingredients,
      0 ≤ x.stock_quantity := by
  unfold OrderService.updateOrderStatus
  split
  · exact hnn
  next order hfind =>
    split
    · exact hnn
    next htab =>
      split
      next e hret => exact hnn
      next s₁ hret =>
        have hnn₁ : ∀ x ∈ s₁.ingredients, 0 ≤ x.stock_quantity := by
          by_cases hc : ns = OrderStatus.cancelled ∧ order.status ≠ OrderStatus.cancelled
          · rw [if_pos hc] at hret
            exact returnOrderStock_nonneg hret hnn
          · rw [if_neg hc] at hret
            simp only [Except.ok.injEq] at hret
            subst hret
            exact hnn
        split
        next e hus =>
          rw [(Order.createRevision_frame s₁ oid uid "update_status" "Status changed").1]
          exact hnn₁
        next s₃ hus =>
          have hfr := Order.updateStatus_ok_inv hus
          split
          next updated hf3 =>
            rw [hfr.1, (Order.createRevision_frame s₁ oid uid "update_status"
              "Status changed").1]
            exact hnn₁
          next hf3 =>
            rw [hfr.1, (Order.createRevision_frame s₁ oid uid "update_status"
              "Status changed").1]
            exact hnn₁

theorem cancelOrder_fst_nonneg (s : DBState) (oid uid : Nat) (reason : String)
    (hnn : ∀ x ∈ s.ingredients, 0 ≤ x.stock_quantity) :
    ∀ x ∈ (OrderService.cancelOrder s oid uid reason).1.ingredients,
      0 ≤ x.stock_quantity := by
  unfold OrderService.cancelOrder
  split
  · exact hnn
  next order hfind =>
    split
    · exact hnn
    · split
      · exact hnn
      next hcomp =>
        split
        next e hret => exact hnn
        next s₁ hret =>
          have hnn₁ := returnOrderStock_nonneg hret hnn
          split
          next e hcs =>
            rw [(Order.createRevision_frame s₁ oid uid "cancel_order"
              (if reason == "" then "Order cancelled" else reason)).1]
            exact hnn₁
          next s₃ hcs =>
            have hfr := Order.updateStatus_ok_inv hcs
            split
            next cancelled hf3 =>
              rw [hfr.1, (Order.createRevision_frame s₁ oid uid "cancel_order"
                (if reason == "" then "Order cancelled" else reason)).1]
              exact hnn₁
            next hf3 =>
              rw [hfr.1, (Order.createRevision_frame s₁ oid uid "cancel_order"
                (if reason == "" then "Order cancelled" else reason)).1]
              exact hnn₁

theorem manualAdjust_ok_inv {s s' : DBState} {iid : Nat} {q : ℚ} {ty notes : String}
    (h : StockManager.adjustStock s iid q ty notes = .ok s') :
    ∃ ingredient s₁, findIngredient s.ingredients iid = some ingredient ∧
      ¬(ingredient.stock_quantity + StockManager.manualAmount q ty < 0) ∧
      Ingredient.adjustStock s iid (StockManager.manualAmount q ty) = .ok s₁ ∧
      s' = { s₁ with movements := s₁.movements ++
        [{ ingredient_id := iid, movement_type := ty,
           quantity := StockManager.manualAmount q ty,
           reference_type := "manual", reference_id := none, notes := notes }] } := by
  unfold StockManager.adjustStock at h
  cases hfi : findIngredient s.ingredients iid with
  | none => simp only [hfi] at h; simp at h
  | some ingredient =>
      simp only [hfi] at h
      by_cases hguard : ingredient.stock_quantity + StockManager.manualAmount q ty < 0
      · rw [if_pos hguard] at h
        simp at h
      · rw [if_neg hguard] at h
        cases ha : Ingredient.adjustStock s iid (StockManager.manualAmount q ty) with
        | error e => rw [ha] at h; simp at h
        | ok s₁ =>
            rw [ha] at h
            simp only [Except.ok.injEq] at h
            subst h
            exact ⟨ingredient, s₁, rfl, hguard, rfl, rfl⟩

theorem manualAdjust_nonneg {s s' : DBState} {iid : Nat} {q : ℚ} {ty notes : String}
    (h : StockManager.adjustStock s iid q ty notes = .ok s')
    (hnn : ∀ x ∈ s.ingredients, 0 ≤ x.stock_quantity) :
    ∀ x ∈ s'.ingredients, 0 ≤ x.stock_quantity := by
  obtain ⟨ing, s₁, -, -, ha, rfl⟩ := manualAdjust_ok_inv h
  have hres := adjustStock_nonneg ha hnn
  exact hres

theorem runOp_fst_nonneg (s : DBState) (op : Op)
    (hnn : ∀ x ∈ s.ingredients, 0 ≤ x.stock_quantity) :
    ∀ x ∈ (runOp s op).1.ingredients, 0 ≤ x.stock_quantity := by
  cases op with
  | createOrder cid items notes => exact createOrder_fst_nonneg s cid items notes hnn
  | updateOrder oid items notes uid => exact updateOrder_fst_nonneg s oid items notes uid hnn
  | updateOrderStatus oid ns uid => exact updateOrderStatus_fst_nonneg s oid ns uid hnn
  | cancelOrder oid uid reason => exact cancelOrder_fst_nonneg s oid uid reason hnn
  | adjustStock iid q ty notes =>
      simp only [runOp]
      cases ha : StockManager.adjustStock s iid q ty notes with
      | error e => exact hnn
      | ok s₁ =>
          have hres := manualAdjust_nonneg ha hnn
          exact hres

/-- After `returnOrderStock` has credited an order's requirements back, the
sufficiency check for those same items passes again. -/
theorem canFulfill_after_return {s s₁ : DBState} {items : List OrderItem}
    (hnn : ∀ x ∈ s.ingredients, 0 ≤ x.stock_quantity)
    (hskel : EqSkel s₁ s)
    (hst₁ : ∀ k, stockOf s₁.ingredients k =
      (stockOf s.ingredients k).map (fun c => c + requiredFor s items k)) :
    (StockManager.checkOrderStock s₁ items).canFulfill = true := by
  rw [canFulfill_iff]
  intro e he
  obtain ⟨ing₁, hfi, hcs, -, -⟩ := reqInv_collectRequirements s₁ items e he
  have hqty := qty_of_mem_collectRequirements he
  have hreq : requiredFor s₁ items = requiredFor s items := requiredFor_congr hskel items
  have h1 : stockOf s₁.ingredients e.ingredient_id = some ing₁.stock_quantity := by
    unfold stockOf
    rw [hfi]
    rfl
  rw [hst₁ e.ingredient_id] at h1
  cases hs0 : stockOf s.ingredients e.ingredient_id with
  | none => rw [hs0] at h1; simp at h1
  | some c₀ =>
      rw [hs0] at h1
      simp only [Option.map_some', Option.some.injEq] at h1
      have hc₀ : 0 ≤ c₀ := by
        unfold stockOf at hs0
        cases hf0 : findIngredient s.ingredients e.ingredient_id with
        | none => rw [hf0] at hs0; simp at hs0
        | some ing₀ =>
            rw [hf0] at hs0
            simp only [Option.map_some', Option.some.injEq] at hs0
            rw [← hs0]
            exact hnn ing₀ (mem_of_findIngredient hf0)
      rw [hqty, hcs, ← h1, hreq]
      calc requiredFor s items e.ingredient_id
          = 0 + requiredFor s items e.ingredient_id := by rw [zero_add]
        _ ≤ c₀ + requiredFor s items e.ingredient_id := by
            exact add_le_add_right hc₀ _

/-- Every error of `priceItems` is one of the two literal validation errors. -/
theorem priceItems_error {s : DBState} :
    ∀ {req : List ItemRequest} {e : ApiErr},
      OrderService.priceItems s req = .error e →
      e = ApiErr.notFound "Produk tidak ditemukan" ∨
      e = ApiErr.badRequest "Produk tidak tersedia" := by
  intro req
  induction req with
  | nil =>
      intro e h
      rw [OrderService.priceItems] at h
      simp at h
  | cons item rest ih =>
      intro e h
      rw [OrderService.priceItems] at h
      cases hfp : Product.findById s item.product_id with
      | none =>
          rw [hfp] at h
          simp only [Except.error.injEq] at h
          exact Or.inl h.symm
      | some product =>
          by_cases hav : product.is_available = true
          · simp only [hfp, hav, Bool.not_true, Bool.false_eq_true, if_false] at h
            cases hrest : OrderService.priceItems s rest with
            | error e' =>
                rw [hrest] at h
                simp only [Except.error.injEq] at h
                subst h
                exact ih hrest
            | ok tail => rw [hrest] at h; simp at h
          · simp only [Bool.not_eq_true] at hav
            simp only [hfp, hav, Bool.not_false, if_true, Except.error.injEq] at h
            exact Or.inr h.symm

/-- Every error of `priceItemsUpdate` is the literal not-found error. -/
theorem priceItemsUpdate_error {s : DBState} :
    ∀ {req : List ItemRequest} {e : ApiErr},
      OrderService.priceItemsUpdate s req = .error e →
      e = ApiErr.notFound "Produk tidak ditemukan" := by
  intro req
  induction req with
  | nil =>
      intro e h
      rw [OrderService.priceItemsUpdate] at h
      simp at h
  | cons item rest ih =>
      intro e h
      rw [OrderService.priceItemsUpdate] at h
      cases hfp : Product.findById s item.product_id with
      | none =>
          rw [hfp] at h
          simp only [Except.error.injEq] at h
          exact h.symm
      | some product =>
          simp only [hfp] at h
          cases hrest : OrderService.priceItemsUpdate s rest with
          | error e' =>
              rw [hrest] at h
              simp only [Except.error.injEq] at h
              subst h
              exact ih hrest
          | ok tail => rw [hrest] at h; simp at h

/-- A freshly appended order with a fresh id is what `findById` returns. -/
theorem findById_append_fresh {s : DBState} {o : Order}
    (hfresh : ∀ o' ∈ s.orders, o'.id < o.id) :
    (s.orders ++ [o]).find? (fun x => x.id == o.id) = some o := by
  rw [List.find?_append]
  have hnone : s.orders.find? (fun x => x.id == o.id) = none := by
    rw [List.find?_eq_none]
    intro x hx hpx
    exact absurd (Nat.eq_of_beq_eq_true (by simpa using hpx))
      (Nat.ne_of_lt (hfresh x hx))
  rw [hnone]
  simp [List.find?_cons]

theorem findById_congr {s t : DBState} (h : s.orders = t.orders) :
    Order.findById s = Order.findById t := by
  funext oid
  unfold Order.findById
  rw [h]

theorem id_of_findById {s : DBState} {oid : Nat} {order : Order}
    (h : Order.findById s oid = some order) : order.id = oid := by
  have := List.find?_some h
  simpa using this

/-- Successful cancellation: stock is credited back by exactly the aggregate
requirements of the order's items, the ledger is extended (never rewritten),
and the order's status becomes `cancelled`. -/
theorem cancelOrder_ok {s : DBState} {oid : Nat} (uid : Nat) (reason : String)
    {order : Order}
    (hfind : Order.findById s oid = some order)
    (hnc : order.status ≠ OrderStatus.cancelled)
    (hncomp : order.status ≠ OrderStatus.completed)
    (hnn : ∀ x ∈ s.ingredients, 0 ≤ x.stock_quantity)
    (hrec : ∀ rr ∈ s.recipes, 0 ≤ rr.quantity_needed)
    (hit : ∀ it ∈ order.items, 0 ≤ it.quantity) :
    ∃ s' o' ext, OrderService.cancelOrder s oid uid reason = (s', .ok o') ∧
      o'.status = OrderStatus.cancelled ∧
      s'.products = s.products ∧ s'.recipes = s.recipes ∧
      s'.movements = s.movements ++ ext ∧
      s'.ingredients.map ingKey = s.ingredients.map ingKey ∧
      (∀ x ∈ s'.ingredients, 0 ≤ x.stock_quantity) ∧
      (∀ k, stockOf s'.ingredients k =
        (stockOf s.ingredients k).map (fun c => c + requiredFor s order.items k)) := by
  obtain ⟨s₁, ext, hret, hp₁, hr₁, ho₁, hv₁, hn₁, hm₁, hkey₁, hnn₁, hst₁⟩ :=
    returnOrderStock_ok oid order.items hnn hrec hit
  have hrev := Order.createRevision_frame s₁ oid uid "cancel_order"
    (if reason == "" then "Order cancelled" else reason)
  have hfind₂ : Order.findById (Order.createRevision s₁ oid uid "cancel_order"
      (if reason == "" then "Order cancelled" else reason)) oid = some order := by
    rw [findById_congr (t := s) (by rw [hrev.2.2.2.2.1, ho₁])]
    exact hfind
  obtain ⟨s₃, hcanc⟩ := Order.updateStatus_ok_of_found OrderStatus.cancelled hfind₂
  have hfr₃ := Order.updateStatus_ok_inv hcanc
  have hfind₃ : Order.findById s₃ oid =
      some { order with status := OrderStatus.cancelled } := by
    unfold Order.findById
    rw [hfr₃.2.2.2.2.2.2, hrev.2.2.2.2.1, ho₁]
    rw [find?_map_comm _ _ (fun o => by split <;> rfl)]
    unfold Order.findById at hfind
    rw [hfind]
    simp only [Option.map_some']
    rw [if_pos (id_of_findById hfind)]
  refine ⟨s₃, { order with status := OrderStatus.cancelled }, ext, ?_, rfl, ?_, ?_, ?_,
    ?_, ?_, ?_⟩
  · unfold OrderService.cancelOrder
    simp only [hfind, hnc, if_false, hncomp, hret, Order.cancel, hcanc, hfind₃]
  · rw [hfr₃.2.2.1, hrev.2.2.1, hp₁]
  · rw [hfr₃.2.1, hrev.2.1, hr₁]
  · rw [hfr₃.2.2.2.1, hrev.2.2.2.1, hm₁]
  · rw [hfr₃.1, hrev.1]
    exact hkey₁
  · rw [hfr₃.1, hrev.1]
    exact hnn₁
  · intro k
    rw [hfr₃.1, hrev.1]
    exact hst₁ k

/-- A second cancellation of an already-cancelled order is rejected before
any write: the state, including every stock quantity and the ledger, is
returned unchanged. -/
theorem cancelOrder_already_cancelled {s : DBState} {oid : Nat} (uid : Nat)
    (reason : String) {order : Order}
    (hfind : Order.findById s oid = some order)
    (hc : order.status = OrderStatus.cancelled) :
    OrderService.cancelOrder s oid uid reason =
      (s, .error (ApiErr.badRequest "Order sudah dibatalkan sebelumnya")) := by
  unfold OrderService.cancelOrder
  simp [hfind, hc]

theorem contains_validTransitions (st ns : OrderStatus) :
    (OrderService.validTransitions st).contains ns = true ↔
      ((st = OrderStatus.pending ∧
          (ns = OrderStatus.processing ∨ ns = OrderStatus.cancelled)) ∨
       (st = OrderStatus.processing ∧
          (ns = OrderStatus.completed ∨ ns = OrderStatus.cancelled))) := by
  cases st <;> cases ns <;> simp [OrderService.validTransitions]

/-- A transition outside the table is rejected with an error and the whole
state — in particular the order's status — is returned unchanged. -/
theorem updateOrderStatus_invalid {s : DBState} {oid : Nat} {ns : OrderStatus}
    (uid : Nat) {order : Order} (hfind : Order.findById s oid = some order)
    (htab : (OrderService.validTransitions order.status).contains ns = false) :
    OrderService.updateOrderStatus s oid ns uid =
      (s, .error (ApiErr.badRequest "Tidak bisa mengubah status")) := by
  unfold OrderService.updateOrderStatus
  simp only [hfind]
  rw [if_pos]
  rw [htab]
  rfl

/-- A transition inside the table succeeds, and the order's status becomes
the requested one. -/
theorem updateOrderStatus_valid {s : DBState} {oid : Nat} {ns : OrderStatus}
    (uid : Nat) {order : Order} (hfind : Order.findById s oid = some order)
    (htab : (OrderService.validTransitions order.status).contains ns = true)
    (hnn : ∀ x ∈ s.ingredients, 0 ≤ x.stock_quantity)
    (hrec : ∀ rr ∈ s.recipes, 0 ≤ rr.quantity_needed)
    (hit : ∀ it ∈ order.items, 0 ≤ it.quantity) :
    ∃ s', OrderService.updateOrderStatus s oid ns uid =
        (s', .ok { order with status := ns }) ∧
      Order.findById s' oid = some { order with status := ns } := by
  have hafter : ∃ s₁, (if ns = OrderStatus.cancelled ∧ order.status ≠ OrderStatus.cancelled
        then StockManager.returnOrderStock s oid order.items
        else .ok s) = .ok s₁ ∧ s₁.orders = s.orders := by
    by_cases hc : ns = OrderStatus.cancelled ∧ order.status ≠ OrderStatus.cancelled
    · rw [if_pos hc]
      obtain ⟨s₁, ext, hret, -, -, ho₁, -⟩ := returnOrderStock_ok oid order.items hnn hrec hit
      exact ⟨s₁, hret, ho₁⟩
    · rw [if_neg hc]
      exact ⟨s, rfl, rfl⟩
  obtain ⟨s₁, hret, ho₁⟩ := hafter
  have hrev := Order.createRevision_frame s₁ oid uid "update_status" "Status changed"
  have hfind₂ : Order.findById (Order.createRevision s₁ oid uid "update_status"
      "Status changed") oid = some order := by
    rw [findById_congr (t := s) (by rw [hrev.2.2.2.2.1, ho₁])]
    exact hfind
  obtain ⟨s₃, hus⟩ := Order.updateStatus_ok_of_found ns hfind₂
  have hfr₃ := Order.updateStatus_ok_inv hus
  have hfind₃ : Order.findById s₃ oid = some { order with status := ns } := by
    unfold Order.findById
    rw [hfr₃.2.2.2.2.2.2, hrev.2.2.2.2.1, ho₁]
    rw [find?_map_comm _ _ (fun o => by split <;> rfl)]
    unfold Order.findById at hfind
    rw [hfind]
    simp only [Option.map_some']
    rw [if_pos (id_of_findById hfind)]
  refine ⟨s₃, ?_, hfind₃⟩
  unfold OrderService.updateOrderStatus
  simp only [hfind, htab, Bool.not_true, Bool.false_eq_true, if_false, hret, hus, hfind₃]

/-- `updateOrder` with a changed line set that fails the sufficiency check
for the new lines: the original lines are re-deducted, so the reported
`INSUFFICIENT_STOCK` error leaves every stock at its pre-call value. -/
theorem updateOrder_insufficient_restores {s : DBState} {oid : Nat}
    {its : List ItemRequest} {nn : Option String} {uid : Nat}
    (hnn : ∀ x ∈ s.ingredients, 0 ≤ x.stock_quantity)
    (hrec : ∀ rr ∈ s.recipes, 0 ≤ rr.quantity_needed)
    (hords : ∀ o ∈ s.orders, ∀ it ∈ o.items, 0 ≤ it.quantity)
    {s' : DBState} {e : ApiErr}
    (h : OrderService.updateOrder s oid (some its) nn uid = (s', .error e))
    (hcode : e.code = "INSUFFICIENT_STOCK") :
    ∀ k, stockOf s'.ingredients k = stockOf s.ingredients k := by
  unfold OrderService.updateOrder at h
  cases hfind : Order.findById s oid with
  | none =>
      simp only [hfind, Prod.mk.injEq, Except.error.injEq] at h
      obtain ⟨rfl, -⟩ := h
      intro k
      rfl
  | some cur =>
      simp only [hfind] at h
      by_cases hterm : cur.status = OrderStatus.completed ∨ cur.status = OrderStatus.cancelled
      · rw [if_pos hterm] at h
        simp only [Prod.mk.injEq, Except.error.injEq] at h
        obtain ⟨rfl, -⟩ := h
        intro k
        rfl
      · rw [if_neg hterm] at h
        obtain ⟨s₁, ext, hret, hp₁, hr₁, ho₁, hv₁, hn₁, hm₁, hkey₁, hnn₁, hst₁⟩ :=
          returnOrderStock_ok oid cur.items hnn hrec
            (hords cur (List.mem_of_find?_eq_some hfind))
        simp only [hret] at h
        cases hpu : OrderService.priceItemsUpdate s₁ its with
        | error e' =>
            simp only [hpu] at h
            simp only [Prod.mk.injEq, Except.error.injEq] at h
            obtain ⟨-, rfl⟩ := h
            have := priceItemsUpdate_error hpu
            subst this
            simp [ApiErr.notFound] at hcode
        | ok priced =>
            simp only [hpu] at h
            by_cases hcan : (StockManager.checkOrderStock s₁ priced).canFulfill = true
            · simp only [hcan, Bool.not_true, Bool.false_eq_true, if_false] at h
              have hrev := Order.createRevision_frame s₁ oid uid "update_quantity"
                "Items updated"
              have hcan₂ : (StockManager.checkOrderStock
                  (Order.createRevision s₁ oid uid "update_quantity" "Items updated")
                  priced).canFulfill = true := by
                rw [checkOrderStock_congr (t := s₁) hrev.1 hrev.2.1]
                exact hcan
              obtain ⟨s₃, hd, -⟩ := deductOrderStock_ok oid priced hcan₂
              simp only [hd] at h
              cases hf4 : Order.findById
                  (Order.update s₃ oid (some priced) nn) oid with
              | some updated =>
                  simp only [hf4] at h
                  simp at h
              | none =>
                  simp only [hf4] at h
                  simp only [Prod.mk.injEq, Except.error.injEq] at h
                  obtain ⟨-, rfl⟩ := h
                  simp [ApiErr.notFound] at hcode
            · simp only [Bool.not_eq_true] at hcan
              simp only [hcan, Bool.not_false, if_true] at h
              have hcanRe : (StockManager.checkOrderStock s₁ cur.items).canFulfill = true :=
                canFulfill_after_return hnn ⟨hr₁, hkey₁⟩ hst₁
              obtain ⟨s₂, hd, hp₂, hr₂, ho₂, hv₂, hn₂, hm₂, hkey₂, hst₂⟩ :=
                deductOrderStock_ok oid cur.items hcanRe
              simp only [hd] at h
              simp only [Prod.mk.injEq, Except.error.injEq] at h
              obtain ⟨rfl, -⟩ := h
              intro k
              rw [hst₂ k, hst₁ k,
                requiredFor_congr (⟨hr₁, hkey₁⟩ : EqSkel s₁ s) cur.items]
              cases stockOf s.ingredients k with
              | none => rfl
              | some c => simp

theorem Order.updateStatus_error_inv {s : DBState} {id : Nat} {st : OrderStatus}
    {e : ApiErr} (h : Order.updateStatus s id st = .error e) :
    e = ApiErr.notFound "Order not found" := by
  unfold Order.updateStatus at h
  by_cases hany : s.orders.any (fun o => o.id == id) = true
  · rw [if_pos hany] at h
    simp at h
  · rw [if_neg hany] at h
    simp only [Except.error.injEq] at h
    exact h.symm

/-- Every error exit of `createOrder` leaves the ingredient table untouched
(the check fails fast, and the deduction itself checks before writing). -/
theorem createOrder_error_state {s s' : DBState} {cid : Nat} {req : List ItemRequest}
    {notes : String} {e : ApiErr}
    (h : OrderService.createOrder s cid req notes = (s', .error e)) :
    s'.ingredients = s.ingredients := by
  unfold OrderService.createOrder at h
  cases hpi : OrderService.priceItems s req with
  | error e' =>
      rw [hpi] at h
      simp only [Prod.mk.injEq] at h
      obtain ⟨rfl, -⟩ := h
      rfl
  | ok items =>
      rw [hpi] at h
      by_cases hcan : (StockManager.checkOrderStock s items).canFulfill = true
      · simp only [hcan, Bool.not_true, Bool.false_eq_true, if_false] at h
        cases hd : StockManager.deductOrderStock (Order.create s cid items notes).1
            (Order.create s cid items notes).2.id items with
        | error e' =>
            simp only [hd, Prod.mk.injEq] at h
            obtain ⟨rfl, -⟩ := h
            rfl
        | ok s₂ =>
            simp only [hd, Prod.mk.injEq] at h
            exact absurd h.2 (by simp)
      · simp only [Bool.not_eq_true] at hcan
        simp only [hcan, Bool.not_false, if_true, Prod.mk.injEq] at h
        obtain ⟨rfl, -⟩ := h
        rfl

/-- `updateOrder` without a line-set change never touches the ingredient
table. -/
theorem updateOrder_none_items_state {s s' : DBState} {oid : Nat} {nn : Option String}
    {uid : Nat} {r : Except ApiErr Order}
    (h : OrderService.updateOrder s oid none nn uid = (s', r)) :
    s'.ingredients = s.ingredients := by
  unfold OrderService.updateOrder at h
  cases hfind : Order.findById s oid with
  | none =>
      simp only [hfind, Prod.mk.injEq] at h
      obtain ⟨rfl, -⟩ := h
      rfl
  | some cur =>
      simp only [hfind] at h
      by_cases hterm : cur.status = OrderStatus.completed ∨ cur.status = OrderStatus.cancelled
      · rw [if_pos hterm] at h
        simp only [Prod.mk.injEq] at h
        obtain ⟨rfl, -⟩ := h
        rfl
      · rw [if_neg hterm] at h
        cases hf2 : Order.findById (Order.update s oid none nn) oid with
        | some updated =>
            simp only [hf2, Prod.mk.injEq] at h
            obtain ⟨rfl, -⟩ := h
            exact (Order.update_frame s oid none nn).1
        | none =>
            simp only [hf2, Prod.mk.injEq] at h
            obtain ⟨rfl, -⟩ := h
            exact (Order.update_frame s oid none nn).1

/-- Every error exit of `updateOrderStatus` either leaves the state untouched
or is a not-found error raised after the order lookup. -/
theorem updateOrderStatus_error_state {s s' : DBState} {oid : Nat} {ns : OrderStatus}
    {uid : Nat} {e : ApiErr}
    (h : OrderService.updateOrderStatus s oid ns uid = (s', .error e)) :
    s' = s ∨ e.code = "NOT_FOUND" := by
  unfold OrderService.updateOrderStatus at h
  cases hfind : Order.findById s oid with
  | none =>
      simp only [hfind, Prod.mk.injEq] at h
      exact Or.inl h.1.symm
  | some order =>
      simp only [hfind] at h
      by_cases htab : (OrderService.validTransitions order.status).contains ns = true
      · simp only [htab, Bool.not_true, Bool.false_eq_true, if_false] at h
        cases hret : (if ns = OrderStatus.cancelled ∧ order.status ≠ OrderStatus.cancelled
            then StockManager.returnOrderStock s oid order.items else .ok s) with
        | error e' =>
            simp only [hret, Prod.mk.injEq] at h
            exact Or.inl h.1.symm
        | ok s₁ =>
            simp only [hret] at h
            cases hus : Order.updateStatus (Order.createRevision s₁ oid uid
                "update_status" "Status changed") oid ns with
            | error e' =>
                simp only [hus, Prod.mk.injEq, Except.error.injEq] at h
                right
                rw [← h.2]
                rw [Order.updateStatus_error_inv hus]
                rfl
            | ok s₃ =>
                simp only [hus] at h
                cases hf3 : Order.findById s₃ oid with
                | some updated =>
                    simp only [hf3, Prod.mk.injEq] at h
                    exact absurd h.2 (by simp)
                | none =>
                    simp only [hf3, Prod.mk.injEq, Except.error.injEq] at h
                    right
                    rw [← h.2]
                    rfl
      · simp only [Bool.not_eq_true] at htab
        simp only [htab, Bool.not_false, if_true, Prod.mk.injEq] at h
        exact Or.inl h.1.symm

/-- Every error exit of `cancelOrder` either leaves the state untouched or is
a not-found error raised after the order lookup. -/
theorem cancelOrder_error_state {s s' : DBState} {oid uid : Nat} {reason : String}
    {e : ApiErr}
    (h : OrderService.cancelOrder s oid uid reason = (s', .error e)) :
    s' = s ∨ e.code = "NOT_FOUND" := by
  unfold OrderService.cancelOrder at h
  cases hfind : Order.findById s oid with
  | none =>
      simp only [hfind, Prod.mk.injEq] at h
      exact Or.inl h.1.symm
  | some order =>
      simp only [hfind] at h
      by_cases hc : order.status = OrderStatus.cancelled
      · simp only [hc, if_true, Prod.mk.injEq] at h
        exact Or.inl h.1.symm
      · simp only [hc, if_false] at h
        by_cases hcomp : order.status = OrderStatus.completed
        · simp only [hcomp, if_true, Prod.mk.injEq] at h
          exact Or.inl h.1.symm
        · simp only [hcomp, if_false] at h
          cases hret : StockManager.returnOrderStock s oid order.items with
          | error e' =>
              simp only [hret, Prod.mk.injEq] at h
              exact Or.inl h.1.symm
          | ok s₁ =>
              simp only [hret] at h
              cases hcs : Order.cancel (Order.createRevision s₁ oid uid "cancel_order"
                  (if reason == "" then "Order cancelled" else reason)) oid with
              | error e' =>
                  simp only [hcs, Prod.mk.injEq, Except.error.injEq] at h
                  right
                  rw [← h.2]
                  rw [Order.updateStatus_error_inv hcs]
                  rfl
              | ok s₃ =>
                  simp only [hcs] at h
                  cases hf3 : Order.findById s₃ oid with
                  | some cancelled =>
                      simp only [hf3, Prod.mk.injEq] at h
                      exact absurd h.2 (by simp)
                  | none =>
                      simp only [hf3, Prod.mk.injEq, Except.error.injEq] at h
                      right
                      rw [← h.2]
                      rfl

/-- A core operation that reports `INSUFFICIENT_STOCK` leaves every stock
quantity at its pre-call value. -/
theorem runOp_insufficient_atomic {s : DBState} {op : Op}
    (hWF : WF s) (hgi : op.goodInput) {e : ApiErr}
    (h : (runOp s op).2 = .error e) (hcode : e.code = "INSUFFICIENT_STOCK") :
    ∀ k, stockOf (runOp s op).1.ingredients k = stockOf s.ingredients k := by
  obtain ⟨hnn, hrec, hords, hids⟩ := hWF
  cases op with
  | createOrder cid req notes =>
      simp only [runOp] at h ⊢
      cases hco : OrderService.createOrder s cid req notes with
      | mk s₁ r =>
          rw [hco] at h
          cases r with
          | ok o => simp [Except.map] at h
          | error e' =>
              have hing : s₁.ingredients = s.ingredients := createOrder_error_state hco
              intro k
              show stockOf s₁.ingredients k = stockOf s.ingredients k
              rw [hing]
  | updateOrder oid ni nn uid =>
      simp only [runOp] at h ⊢
      cases hup : OrderService.updateOrder s oid ni nn uid with
      | mk s₁ r =>
          rw [hup] at h
          cases r with
          | ok o => simp [Except.map] at h
          | error e' =>
              simp only [Except.map, Except.error.injEq] at h
              subst h
              cases ni with
              | none =>
                  have hing := updateOrder_none_items_state hup
                  intro k
                  show stockOf s₁.ingredients k = stockOf s.ingredients k
                  rw [hing]
              | some its =>
                  have hres := updateOrder_insufficient_restores hnn hrec hords hup hcode
                  intro k
                  show stockOf s₁.ingredients k = stockOf s.ingredients k
                  exact hres k
  | updateOrderStatus oid ns uid =>
      simp only [runOp] at h ⊢
      cases hus : OrderService.updateOrderStatus s oid ns uid with
      | mk s₁ r =>
          rw [hus] at h
          cases r with
          | ok o => simp [Except.map] at h
          | error e' =>
              simp only [Except.map, Except.error.injEq] at h
              subst h
              rcases updateOrderStatus_error_state hus with rfl | hnf
              · intro k; rfl
              · rw [hnf] at hcode; simp at hcode
  | cancelOrder oid uid reason =>
      simp only [runOp] at h ⊢
      cases hco : OrderService.cancelOrder s oid uid reason with
      | mk s₁ r =>
          rw [hco] at h
          cases r with
          | ok o => simp [Except.map] at h
          | error e' =>
              simp only [Except.map, Except.error.injEq] at h
              subst h
              rcases cancelOrder_error_state hco with rfl | hnf
              · intro k; rfl
              · rw [hnf] at hcode; simp at hcode
  | adjustStock iid q ty notes =>
      simp only [runOp] at h ⊢
      cases ha : StockManager.adjustStock s iid q ty notes with
      | error e' => intro k; rfl
      | ok s₁ => rw [ha] at h; simp at h

theorem runOps_nonneg (ops : List Op) :
    ∀ (s : DBState), (∀ x ∈ s.ingredients, 0 ≤ x.stock_quantity) →
      ∀ x ∈ (runOps s ops).ingredients, 0 ≤ x.stock_quantity := by
  induction ops with
  | nil => intro s hnn; exact hnn
  | cons op ops ih =>
      intro s hnn
      rw [runOps, List.foldl_cons]
      exact ih _ (runOp_fst_nonneg s op hnn)

/-! ## Cost-calculator lemmas -/

theorem foldl_cost_sum (l : List CostCalculator.BreakdownEntry) :
    ∀ a : ℚ, l.foldl (fun sum item => sum + item.cost) a =
      a + (l.map (fun b => b.cost)).sum := by
  induction l with
  | nil => intro a; simp
  | cons b l ih =>
      intro a
      rw [List.foldl_cons, ih, List.map_cons, List.sum_cons]
      ring

theorem calculateProductCost_congr {s t : DBState} (hi : s.ingredients = t.ingredients)
    (hr : s.recipes = t.recipes) :
    CostCalculator.calculateProductCost s = CostCalculator.calculateProductCost t := by
  funext pid
  unfold CostCalculator.calculateProductCost
  rw [findByProductId_congr hi hr]

theorem updateProductCost_ok {s : DBState} {pid : Nat}
    (hany : s.products.any (fun p => p.id == pid) = true) :
    ∃ s₁, CostCalculator.updateProductCost s pid = .ok s₁ ∧
      s₁.ingredients = s.ingredients ∧ s₁.recipes = s.recipes ∧
      s₁.orders = s.orders ∧ s₁.movements = s.movements ∧
      s₁.revisions = s.revisions ∧ s₁.nextOrderId = s.nextOrderId ∧
      s₁.products = s.products.map (fun p => if p.id = pid then
        { p with cost_price := (CostCalculator.calculateProductCost s pid).cost_price }
        else p) := by
  refine ⟨{ s with
      products := s.products.map (fun p =>
        if p.id = pid then
          { p with cost_price := (CostCalculator.calculateProductCost s pid).cost_price }
        else p) }, ?_, rfl, rfl, rfl, rfl, rfl, rfl, rfl⟩
  unfold CostCalculator.updateProductCost Product.updateCostPrice
  rw [if_pos hany]

theorem setCost_step (s : DBState) (pid : Nat) (rest : List Nat) (p : Product) :
    setCost s rest (if p.id = pid then
      { p with cost_price := (CostCalculator.calculateProductCost s pid).cost_price }
      else p) = setCost s (pid :: rest) p := by
  by_cases h1 : p.id = pid
  · subst h1
    rw [if_pos rfl]
    unfold setCost
    by_cases h2 : p.id ∈ rest
    · rw [if_pos (show ({ p with cost_price :=
          (CostCalculator.calculateProductCost s p.id).cost_price } : Product).id ∈ rest from h2),
        if_pos (List.mem_cons.mpr (Or.inr h2))]
    · rw [if_neg (show ¬ ({ p with cost_price :=
          (CostCalculator.calculateProductCost s p.id).cost_price } : Product).id ∈ rest from h2),
        if_pos (List.mem_cons.mpr (Or.inl rfl))]
  · rw [if_neg h1]
    unfold setCost
    by_cases h2 : p.id ∈ rest
    · rw [if_pos h2, if_pos (List.mem_cons.mpr (Or.inr h2))]
    · rw [if_neg h2, if_neg (fun hc => (List.mem_cons.mp hc).elim h1 h2)]

theorem setCost_congr {s t : DBState} (hi : s.ingredients = t.ingredients)
    (hr : s.recipes = t.recipes) : setCost s = setCost t := by
  funext pids p
  unfold setCost
  rw [calculateProductCost_congr hi hr]

theorem recalcLoop_ok (pids : List Nat) : ∀ (s : DBState),
    (∀ pid ∈ pids, s.products.any (fun p => p.id == pid) = true) →
    ∃ s', CostCalculator.recalcLoop s pids = .ok s' ∧
      s'.ingredients = s.ingredients ∧ s'.recipes = s.recipes ∧
      s'.orders = s.orders ∧ s'.movements = s.movements ∧
      s'.revisions = s.revisions ∧ s'.nextOrderId = s.nextOrderId ∧
      s'.products = s.products.map (setCost s pids) := by
  induction pids with
  | nil =>
      intro s _
      refine ⟨s, rfl, rfl, rfl, rfl, rfl, rfl, rfl, ?_⟩
      unfold setCost
      simp
  | cons pid rest ih =>
      intro s hall
      have hany : s.products.any (fun p => p.id == pid) = true := hall pid (by simp)
      obtain ⟨s₁, h1, hi₁, hr₁, ho₁, hm₁, hv₁, hn₁, hp₁⟩ := updateProductCost_ok hany
      have hall₁ : ∀ q ∈ rest, s₁.products.any (fun p => p.id == q) = true := by
        intro q hq
        rcases List.any_eq_true.mp (hall q (by simp [hq])) with ⟨x, hx, hxq⟩
        rw [hp₁]
        refine List.any_eq_true.mpr ⟨_, List.mem_map_of_mem _ hx, ?_⟩
        by_cases hxp : x.id = pid
        · simpa [hxp] using hxq
        · simpa [hxp] using hxq
      obtain ⟨s₂, hrun, hi₂, hr₂, ho₂, hm₂, hv₂, hn₂, hp₂⟩ := ih s₁ hall₁
      refine ⟨s₂, ?_, hi₂.trans hi₁, hr₂.trans hr₁, ho₂.trans ho₁, hm₂.trans hm₁,
        hv₂.trans hv₁, hn₂.trans hn₁, ?_⟩
      · simp only [CostCalculator.recalcLoop]
        rw [h1]
        exact hrun
      · rw [hp₂, hp₁, setCost_congr hi₁ hr₁, List.map_map]
        exact List.map_congr_left (fun p _ => setCost_step s pid rest p)

theorem mem_dedupFold (xs : List Nat) :
    ∀ (acc : List Nat) (x : Nat),
      x ∈ xs.foldl (fun acc x => if x ∈ acc then acc else acc ++ [x]) acc ↔
        x ∈ acc ∨ x ∈ xs := by
  induction xs with
  | nil => intro acc x; simp
  | cons y ys ih =>
      intro acc x
      rw [List.foldl_cons]
      by_cases hy : y ∈ acc
      · rw [if_pos hy, ih]
        constructor
        · rintro (h | h)
          · exact Or.inl h
          · exact Or.inr (List.mem_cons_of_mem _ h)
        · rintro (h | h)
          · exact Or.inl h
          · rcases List.mem_cons.mp h with rfl | h
            · exact Or.inl hy
            · exact Or.inr h
      · rw [if_neg hy, ih]
        simp only [List.mem_append, List.mem_cons, List.not_mem_nil, or_false]
        tauto

theorem jsDedup_mem (xs : List Nat) (x : Nat) :
    x ∈ CostCalculator.jsDedup xs ↔ x ∈ xs := by
  unfold CostCalculator.jsDedup
  rw [mem_dedupFold]
  simp

theorem mem_findByIngredientId {s : DBState} {iid : Nat} {qp : ℚ × Product} :
    qp ∈ Recipe.findByIngredientId s iid ↔
      ∃ r ∈ s.recipes, r.ingredient_id = iid ∧
        s.products.find? (fun p => p.id == r.product_id) = some qp.2 ∧
        qp.1 = r.quantity_needed := by
  unfold Recipe.findByIngredientId
  rw [List.mem_filterMap]
  constructor
  · rintro ⟨r, hr, hf⟩
    rcases List.mem_filter.mp hr with ⟨hrm, hri⟩
    cases hfp : s.products.find? (fun p => p.id == r.product_id) with
    | none => rw [hfp] at hf; simp at hf
    | some p =>
        rw [hfp] at hf
        simp only [Option.map_some', Option.some.injEq] at hf
        refine ⟨r, hrm, by simpa using hri, ?_, ?_⟩
        · rw [hfp, ← hf]
        · rw [← hf]
  · rintro ⟨r, hrm, hri, hfp, hq⟩
    refine ⟨r, List.mem_filter.mpr ⟨hrm, by simpa using hri⟩, ?_⟩
    rw [hfp]
    simp only [Option.map_some', Option.some.injEq]
    cases qp with
    | mk q p => simp only at hq ⊢; rw [hq]

theorem productIds_findable {s : DBState} {iid pid : Nat}
    (h : pid ∈ CostCalculator.jsDedup
      ((Recipe.findByIngredientId s iid).map (fun rp => rp.2.id))) :
    s.products.any (fun p => p.id == pid) = true := by
  rw [jsDedup_mem] at h
  rcases List.mem_map.mp h with ⟨qp, hqp, hid⟩
  rcases mem_findByIngredientId.mp hqp with ⟨r, -, -, hfp, -⟩
  have hmem := List.mem_of_find?_eq_some hfp
  exact List.any_eq_true.mpr ⟨qp.2, hmem, by simpa using hid⟩

theorem mem_productIds_iff {s : DBState} {iid pid : Nat}
    (hpid : s.products.any (fun p => p.id == pid) = true) :
    pid ∈ CostCalculator.jsDedup
        ((Recipe.findByIngredientId s iid).map (fun rp => rp.2.id)) ↔
      referencesIngredient s iid pid = true := by
  rw [jsDedup_mem]
  constructor
  · intro h
    rcases List.mem_map.mp h with ⟨qp, hqp, hid⟩
    rcases mem_findByIngredientId.mp hqp with ⟨r, hrm, hri, hfp, -⟩
    have hpr : qp.2.id = r.product_id := by simpa using List.find?_some hfp
    refine List.any_eq_true.mpr ⟨r, hrm, ?_⟩
    simp only [Bool.and_eq_true, beq_iff_eq]
    exact ⟨hri, by rw [← hpr, hid]⟩
  · intro h
    rcases List.any_eq_true.mp h with ⟨r, hrm, hr⟩
    simp only [Bool.and_eq_true, beq_iff_eq] at hr
    obtain ⟨hri, hrp⟩ := hr
    have hsome : (s.products.find? (fun p => p.id == r.product_id)).isSome = true := by
      rw [List.find?_isSome]
      rcases List.any_eq_true.mp hpid with ⟨x, hx, hxq⟩
      exact ⟨x, hx, by rw [hrp]; exact hxq⟩
    rcases Option.isSome_iff_exists.mp hsome with ⟨p, hfp⟩
    have hpr : p.id = r.product_id := by simpa using List.find?_some hfp
    refine List.mem_map.mpr ⟨(r.quantity_needed, p), ?_, by simpa using hpr.trans hrp⟩
    exact mem_findByIngredientId.mpr ⟨r, hrm, hri, hfp, rfl⟩

/-! ## Reducibility for concrete evaluation

The rational operations of the standard library are `irreducible` by
default; the concrete test fixtures below are settled by evaluation, which
needs them unfolded. -/

set_option allowUnsafeReducibility true

attribute [semireducible] Rat.add Rat.sub Rat.mul Rat.div Rat.inv

/-! ## The claims -/

/-- C1: starting from a well-formed state, every ingredient's
`stock_quantity` is non-negative after every sequence of core operations
(no sequence can drive it negative), and an operation that reports the
`INSUFFICIENT_STOCK` failure leaves every stock quantity exactly as it
found it. -/
theorem C1_stock_nonneg_invariant (s : DBState) (hWF : WF s) :
    (∀ ops : List Op, ∀ x ∈ (runOps s ops).ingredients, 0 ≤ x.stock_quantity) ∧
    (∀ op : Op, op.goodInput → ∀ e : ApiErr, (runOp s op).2 = .error e →
      e.code = "INSUFFICIENT_STOCK" →
      ∀ k, stockOf (runOp s op).1.ingredients k = stockOf s.ingredients k) :=
  ⟨fun ops => runOps_nonneg ops s hWF.1,
   fun _ hgi _ h hcode => runOp_insufficient_atomic hWF hgi h hcode⟩

/-- C1 witness: the fixture state is well-formed, so the invariant holds of
it concretely. -/
theorem C1_witness :
    WF exState ∧
    ((∀ ops : List Op, ∀ x ∈ (runOps exState ops).ingredients, 0 ≤ x.stock_quantity) ∧
     (∀ op : Op, op.goodInput → ∀ e : ApiErr, (runOp exState op).2 = .error e →
       e.code = "INSUFFICIENT_STOCK" →
       ∀ k, stockOf (runOp exState op).1.ingredients k = stockOf exState.ingredients k)) := by
  have h : WF exState := ⟨by decide, by decide, by decide, by decide⟩
  exact ⟨h, C1_stock_nonneg_invariant exState h⟩

/-- C2: the conservation invariant fails in the source.  Cancelling an order
whose two products share an ingredient credits the aggregate quantity (15)
back to stock, but records a ledger entry only for the first recipe row
(+10), so the final stock (100) differs from the initial stock plus the
signed ledger total (100 + (-15 + 10) = 95). -/
theorem C2_conservation_violated :
    stockOf exState.ingredients 1 = some 100 ∧ exState.movements = [] ∧
    stockOf (runOps exState exOps).ingredients 1 = some 100 ∧
    ledgerSum (runOps exState exOps).movements 1 = -5 ∧
    stockOf (runOps exState exOps).ingredients 1 ≠
      (stockOf exState.ingredients 1).map
        (fun c => c + ledgerSum (runOps exState exOps).movements 1) :=
  ⟨by decide, rfl, by decide, by decide, by decide⟩

/-- C8: `calculateProductCost` returns the recipe-join costs
`quantity_needed * unit_price` summed and rounded to 2 decimal places; a
product without recipe rows gets cost 0 and the diagnostic message. -/
theorem C8_calculateProductCost_spec (s : DBState) (pid : Nat) :
    CostCalculator.calculateProductCost s pid =
      if Recipe.findByProductId s pid = [] then
        { cost_price := 0, breakdown := [],
          message := some "No recipe defined for this product" }
      else
        { cost_price := (jsRound ((((Recipe.findByProductId s pid).map
              (fun r => r.quantity_needed * r.unit_price)).sum) * 100) : ℚ) / 100,
          breakdown := (Recipe.findByProductId s pid).map (fun r =>
            { ingredient_id := r.ingredient_id, quantity_needed := r.quantity_needed,
              unit_price := r.unit_price, cost := r.quantity_needed * r.unit_price }),
          message := none } := by
  cases hE : Recipe.findByProductId s pid with
  | nil =>
      simp only [CostCalculator.calculateProductCost, hE]
      rfl
  | cons r rows =>
      simp only [CostCalculator.calculateProductCost, hE]
      rw [if_neg (by simp), if_neg (List.cons_ne_nil r rows)]
      rw [foldl_cost_sum, zero_add, List.map_map]
      rfl

/-- C9: `recalculateByIngredient` succeeds, recomputes and persists
`cost_price` for exactly the products whose recipe references the
ingredient, and leaves every other product row and every other table
unchanged. -/
theorem C9_recalculateByIngredient_frame (s : DBState) (iid : Nat) :
    ∃ s', CostCalculator.recalculateByIngredient s iid = .ok s' ∧
      s'.ingredients = s.ingredients ∧ s'.recipes = s.recipes ∧
      s'.orders = s.orders ∧ s'.movements = s.movements ∧
      s'.revisions = s.revisions ∧ s'.nextOrderId = s.nextOrderId ∧
      s'.products = s.products.map (fun p =>
        if referencesIngredient s iid p.id then
          { p with cost_price := (CostCalculator.calculateProductCost s p.id).cost_price }
        else p) := by
  obtain ⟨s', hrun, hi, hr, ho, hm, hv, hn, hp⟩ :=
    recalcLoop_ok (CostCalculator.jsDedup
      ((Recipe.findByIngredientId s iid).map (fun rp => rp.2.id))) s
      (fun pid h => productIds_findable h)
  refine ⟨s', hrun, hi, hr, ho, hm, hv, hn, ?_⟩
  rw [hp]
  refine List.map_congr_left (fun p hpmem => ?_)
  unfold setCost
  have hpid : s.products.any (fun q => q.id == p.id) = true :=
    List.any_eq_true.mpr ⟨p, hpmem, by simp⟩
  by_cases hmemb : p.id ∈ CostCalculator.jsDedup
      ((Recipe.findByIngredientId s iid).map (fun rp => rp.2.id))
  · rw [if_pos hmemb, if_pos ((mem_productIds_iff hpid).mp hmemb)]
  · rw [if_neg hmemb, if_neg (fun hc => hmemb ((mem_productIds_iff hpid).mpr hc))]

/-- C10: `Ingredient.adjustStock` — identically in both data-access
implementations — persists `max 0 (current + adjustment)`: an over-large
decrement is silently clamped to zero, no error is raised, and nothing
else in the state changes. -/
theorem C10_adjustStock_clamps {s : DBState} {id : Nat} (adjustment : ℚ)
    {cur : Ingredient} (hfind : findIngredient s.ingredients id = some cur) :
    ∃ s', Ingredient.adjustStock s id adjustment = .ok s' ∧
      Ingredient.adjustStockPg s id adjustment = .ok s' ∧
      stockOf s'.ingredients id = some (max 0 (cur.stock_quantity + adjustment)) ∧
      (∀ k, k ≠ id → stockOf s'.ingredients k = stockOf s.ingredients k) ∧
      s'.ingredients.map ingKey = s.ingredients.map ingKey ∧
      s'.products = s.products ∧ s'.recipes = s.recipes ∧ s'.orders = s.orders ∧
      s'.movements = s.movements ∧ s'.revisions = s.revisions := by
  refine ⟨{ s with ingredients :=
      updateStockList s.ingredients id (max 0 (cur.stock_quantity + adjustment)) },
    ?_, ?_, ?_, ?_, ingKey_updateStockList _ _ _, rfl, rfl, rfl, rfl, rfl⟩
  · unfold Ingredient.adjustStock
    rw [hfind]
  · unfold Ingredient.adjustStockPg
    rw [hfind]
  · show stockOf (updateStockList s.ingredients id
        (max 0 (cur.stock_quantity + adjustment))) id =
      some (max 0 (cur.stock_quantity + adjustment))
    rw [stockOf_updateStockList, if_pos rfl]
    unfold stockOf
    rw [hfind]
    rfl
  · intro k hk
    show stockOf (updateStockList s.ingredients id
        (max 0 (cur.stock_quantity + adjustment))) k = stockOf s.ingredients k
    rw [stockOf_updateStockList, if_neg hk]

/-- C10 witness: deducting 250 from a stock of 100 silently persists 0 in
both implementations. -/
theorem C10_witness :
    findIngredient exState.ingredients 1 = some
      { id := 1, name := "Flour", unit := "g", stock_quantity := 100,
        min_stock_threshold := 20, unit_price := 2 } ∧
    (∃ s', Ingredient.adjustStock exState 1 (-250) = .ok s' ∧
      Ingredient.adjustStockPg exState 1 (-250) = .ok s' ∧
      stockOf s'.ingredients 1 = some (max 0 (100 + (-250))) ∧
      (∀ k, k ≠ 1 → stockOf s'.ingredients k = stockOf exState.ingredients k) ∧
      s'.ingredients.map ingKey = exState.ingredients.map ingKey ∧
      s'.products = exState.products ∧ s'.recipes = exState.recipes ∧
      s'.orders = exState.orders ∧ s'.movements = exState.movements ∧
      s'.revisions = exState.revisions) := by
  have h : findIngredient exState.ingredients 1 = some
      { id := 1, name := "Flour", unit := "g", stock_quantity := 100,
        min_stock_threshold := 20, unit_price := 2 } := by decide
  exact ⟨h, C10_adjustStock_clamps (-250) h⟩

/-- C3: an order successfully created and then cancelled restores every
ingredient's stock to its pre-creation value, while the ledger only grows —
first by the deduction entries, then by further return entries; nothing is
removed. -/
theorem C3_create_cancel_roundtrip {s s₁ : DBState} {cid : Nat}
    {req : List ItemRequest} {notes : String} {o : Order}
    (hWF : WF s) (hreq : ∀ it ∈ req, 0 ≤ it.quantity)
    (hco : OrderService.createOrder s cid req notes = (s₁, .ok o))
    (uid : Nat) (reason : String) :
    ∃ s₂ o' ext, OrderService.cancelOrder s₁ o.id uid reason = (s₂, .ok o') ∧
      o'.status = OrderStatus.cancelled ∧
      (∀ k, stockOf s₂.ingredients k = stockOf s.ingredients k) ∧
      s₁.movements = s.movements ++
        (StockManager.collectRequirements s o.items).map
          (StockManager.deductMovement o.id) ∧
      s₂.movements = s₁.movements ++ ext := by
  obtain ⟨hnn, hrec, hords, hids⟩ := hWF
  obtain ⟨items, hpi, hcan, hid, hitems, hstat, hcid,
    hp₁, hr₁, ho₁, hv₁, hn₁, hm₁, hkey₁, hst₁⟩ := createOrder_ok_inv hco
  have hfind : Order.findById s₁ o.id = some o := by
    unfold Order.findById
    rw [ho₁]
    exact findById_append_fresh (fun o' ho' => by rw [hid]; exact hids o' ho')
  have hnn₁ : ∀ x ∈ s₁.ingredients, 0 ≤ x.stock_quantity := by
    have hres := createOrder_fst_nonneg s cid req notes hnn
    rw [hco] at hres
    exact hres
  have hrec₁ : ∀ rr ∈ s₁.recipes, 0 ≤ rr.quantity_needed := by
    rw [hr₁]
    exact hrec
  have hit : ∀ it ∈ o.items, 0 ≤ it.quantity := by
    rw [hitems]
    exact priceItems_nonneg hpi hreq
  obtain ⟨s₂, o', ext, hcanc, hstat', hp₂, hr₂, hm₂, hkey₂, hnn₂, hst₂⟩ :=
    cancelOrder_ok uid reason hfind (by rw [hstat]; decide) (by rw [hstat]; decide)
      hnn₁ hrec₁ hit
  refine ⟨s₂, o', ext, hcanc, hstat', ?_, ?_, hm₂⟩
  · intro k
    rw [hst₂ k, hst₁ k,
      requiredFor_congr (⟨hr₁, hkey₁⟩ : EqSkel s₁ s) o.items, hitems]
    cases stockOf s.ingredients k with
    | none => rfl
    | some c => simp
  · rw [hitems]
    exact hm₁

/-- C3 witness: the fixture create-then-cancel round trip. -/
theorem C3_witness :
    WF exState ∧ (∀ it ∈ exItems, 0 ≤ it.quantity) ∧
    OrderService.createOrder exState 7 exItems "" = (exS1, .ok exOrder) ∧
    (∃ s₂ o' ext, OrderService.cancelOrder exS1 exOrder.id 9 "changed" = (s₂, .ok o') ∧
      o'.status = OrderStatus.cancelled ∧
      (∀ k, stockOf s₂.ingredients k = stockOf exState.ingredients k) ∧
      exS1.movements = exState.movements ++
        (StockManager.collectRequirements exState exOrder.items).map
          (StockManager.deductMovement exOrder.id) ∧
      s₂.movements = exS1.movements ++ ext) := by
  have hWF : WF exState := ⟨by decide, by decide, by decide, by decide⟩
  have hreq : ∀ it ∈ exItems, 0 ≤ it.quantity := by decide
  have hco : OrderService.createOrder exState 7 exItems "" = (exS1, .ok exOrder) := rfl
  exact ⟨hWF, hreq, hco, C3_create_cancel_roundtrip hWF hreq hco 9 "changed"⟩

/-- C4: a create request failing the aggregate sufficiency check is rejected
with the itemized `INSUFFICIENT_STOCK` error — each shortage entry names the
aggregate requirement, the actual stock and their difference — and the whole
state, order table and stock quantities included, is returned unchanged. -/
theorem C4_createOrder_insufficient {s : DBState} (cid : Nat) {req : List ItemRequest}
    (notes : String) {items : List OrderItem}
    (hpi : OrderService.priceItems s req = .ok items)
    (hcan : (StockManager.checkOrderStock s items).canFulfill = false) :
    OrderService.createOrder s cid req notes =
      (s, .error (ApiErr.badRequest "Tidak bisa membuat order: stok bahan baku tidak cukup"
        "INSUFFICIENT_STOCK" (StockManager.checkOrderStock s items).shortages)) ∧
    (StockManager.checkOrderStock s items).shortages ≠ [] ∧
    ∀ sh ∈ (StockManager.checkOrderStock s items).shortages,
      sh.available < sh.required ∧ sh.shortage = sh.required - sh.available ∧
      sh.required = requiredFor s items sh.ingredient_id ∧
      stockOf s.ingredients sh.ingredient_id = some sh.available := by
  refine ⟨createOrder_insufficient cid notes hpi hcan, ?_, ?_⟩
  · intro hnil
    have hsh : ((StockManager.checkOrderStock s items).shortages).isEmpty = false := hcan
    rw [hnil] at hsh
    simp at hsh
  · intro sh hshmem
    have hmem : sh ∈ StockManager.shortagesOf
        (StockManager.collectRequirements s items) := hshmem
    unfold StockManager.shortagesOf at hmem
    rcases List.mem_map.mp hmem with ⟨rq, hrqf, rfl⟩
    rcases List.mem_filter.mp hrqf with ⟨hrqm, hlt⟩
    have hlt' : rq.current_stock < rq.quantity_needed := by simpa using hlt
    refine ⟨hlt', rfl, ?_, ?_⟩
    · show rq.quantity_needed = requiredFor s items rq.ingredient_id
      exact qty_of_mem_collectRequirements hrqm
    · show stockOf s.ingredients rq.ingredient_id = some rq.current_stock
      obtain ⟨ing, hfi, hcs, -, -⟩ := reqInv_collectRequirements s items rq hrqm
      unfold stockOf
      rw [hfi, Option.map_some', hcs]

/-- C4 witness: eleven breads need 110 flour against 100 in stock; the
request is rejected with the itemized shortage and no change of state. -/
theorem C4_witness :
    OrderService.priceItems exState exBigReq = .ok exBigItems ∧
    (StockManager.checkOrderStock exState exBigItems).canFulfill = false ∧
    (OrderService.createOrder exState 3 exBigReq "note" =
      (exState, .error (ApiErr.badRequest "Tidak bisa membuat order: stok bahan baku tidak cukup"
        "INSUFFICIENT_STOCK" (StockManager.checkOrderStock exState exBigItems).shortages)) ∧
     (StockManager.checkOrderStock exState exBigItems).shortages ≠ [] ∧
     ∀ sh ∈ (StockManager.checkOrderStock exState exBigItems).shortages,
       sh.available < sh.required ∧ sh.shortage = sh.required - sh.available ∧
       sh.required = requiredFor exState exBigItems sh.ingredient_id ∧
       stockOf exState.ingredients sh.ingredient_id = some sh.available) := by
  have hpi : OrderService.priceItems exState exBigReq = .ok exBigItems := rfl
  have hcan : (StockManager.checkOrderStock exState exBigItems).canFulfill = false := by
    decide
  exact ⟨hpi, hcan, C4_createOrder_insufficient 3 "note" hpi hcan⟩

/-- C5 (amended): when `updateOrder` changes the line set and fails the
stock-sufficiency check for the new lines, the original lines are
re-deducted before the `INSUFFICIENT_STOCK` error surfaces, so every stock
quantity equals its pre-call value.  The claimed restoration does NOT hold
of the invalid-line failure — see the counterexample. -/
theorem C5_updateOrder_insufficient_restores {s : DBState} {oid : Nat}
    {its : List ItemRequest} {nn : Option String} {uid : Nat} (hWF : WF s)
    {s' : DBState} {e : ApiErr}
    (h : OrderService.updateOrder s oid (some its) nn uid = (s', .error e))
    (hcode : e.code = "INSUFFICIENT_STOCK") :
    ∀ k, stockOf s'.ingredients k = stockOf s.ingredients k :=
  updateOrder_insufficient_restores hWF.1 hWF.2.1 hWF.2.2.1 h hcode

/-- C5 counterexample: an update whose new line names a nonexistent product
fails with `NOT_FOUND` after the original lines were returned to stock and
without re-deducting them — the persisted stock (100) differs from the
pre-call stock (85). -/
theorem C5_counterexample :
    (OrderService.updateOrder exS1 1 (some [⟨99, 1⟩]) none 5).2 =
      .error (ApiErr.notFound "Produk tidak ditemukan") ∧
    stockOf exS1.ingredients 1 = some 85 ∧
    stockOf (OrderService.updateOrder exS1 1
      (some [⟨99, 1⟩]) none 5).1.ingredients 1 = some 100 :=
  ⟨rfl, by decide, by decide⟩

/-- C5 witness: a concrete insufficient update (eleven breads against 100
flour) reports `INSUFFICIENT_STOCK` with every stock at its pre-call
value. -/
theorem C5_witness :
    WF exS1 ∧
    OrderService.updateOrder exS1 1 (some [⟨1, 11⟩]) none 5 =
      ((OrderService.updateOrder exS1 1 (some [⟨1, 11⟩]) none 5).1,
       .error (errOf (OrderService.updateOrder exS1 1 (some [⟨1, 11⟩]) none 5).2)) ∧
    (errOf (OrderService.updateOrder exS1 1 (some [⟨1, 11⟩]) none 5).2).code =
      "INSUFFICIENT_STOCK" ∧
    ∀ k, stockOf (OrderService.updateOrder exS1 1
        (some [⟨1, 11⟩]) none 5).1.ingredients k = stockOf exS1.ingredients k := by
  have hWF : WF exS1 := ⟨by decide, by decide, by decide, by decide⟩
  have h : OrderService.updateOrder exS1 1 (some [⟨1, 11⟩]) none 5 =
      ((OrderService.updateOrder exS1 1 (some [⟨1, 11⟩]) none 5).1,
       .error (errOf (OrderService.updateOrder exS1 1 (some [⟨1, 11⟩]) none 5).2)) := rfl
  have hcode : (errOf (OrderService.updateOrder exS1 1
      (some [⟨1, 11⟩]) none 5).2).code = "INSUFFICIENT_STOCK" := by decide
  exact ⟨hWF, h, hcode, C5_updateOrder_insufficient_restores hWF h hcode⟩

/-- C6 (corrected): contrary to the flagged open question, the source does
guard against duplicate cancellation: a second cancellation of an
already-cancelled order is rejected with a 400 error and the state —
every stock quantity and the ledger included — is returned untouched, so no
double credit occurs. -/
theorem C6_duplicate_cancel_rejected {s : DBState} {oid : Nat} (uid : Nat)
    (reason : String) {order : Order}
    (hfind : Order.findById s oid = some order)
    (hc : order.status = OrderStatus.cancelled) :
    OrderService.cancelOrder s oid uid reason =
      (s, .error (ApiErr.badRequest "Order sudah dibatalkan sebelumnya")) :=
  cancelOrder_already_cancelled uid reason hfind hc

/-- C6 counterexample to the claimed hazard: after cancelling the fixture
order once (stock back to 100), a second cancellation request is rejected
and stock stays 100 — it is not credited again to 115. -/
theorem C6_counterexample :
    stockOf exS2.ingredients 1 = some 100 ∧
    OrderService.cancelOrder exS2 1 9 "again" =
      (exS2, .error (ApiErr.badRequest "Order sudah dibatalkan sebelumnya")) ∧
    stockOf (OrderService.cancelOrder exS2 1 9 "again").1.ingredients 1 = some 100 :=
  ⟨by decide, rfl, by decide⟩

/-- C6 witness: the guard theorem applied to the cancelled fixture order. -/
theorem C6_witness :
    Order.findById exS2 1 = some exCancelledOrder ∧
    exCancelledOrder.status = OrderStatus.cancelled ∧
    OrderService.cancelOrder exS2 1 4 "x" =
      (exS2, .error (ApiErr.badRequest "Order sudah dibatalkan sebelumnya")) := by
  have hfind : Order.findById exS2 1 = some exCancelledOrder := by decide
  have hc : exCancelledOrder.status = OrderStatus.cancelled := by decide
  exact ⟨hfind, hc, C6_duplicate_cancel_rejected 4 "x" hfind hc⟩

/-- C7: `updateOrderStatus` permits exactly the four tabled edges —
pending→processing, pending→cancelled, processing→completed,
processing→cancelled.  A tabled transition succeeds and persists the new
status; any other request is rejected with a 400 error and the whole state,
in particular the order's status, is returned unchanged. -/
theorem C7_transition_table {s : DBState} {oid : Nat} {ns : OrderStatus}
    (uid : Nat) {order : Order} (hfind : Order.findById s oid = some order)
    (hWF : WF s) :
    (((order.status = OrderStatus.pending ∧
        (ns = OrderStatus.processing ∨ ns = OrderStatus.cancelled)) ∨
      (order.status = OrderStatus.processing ∧
        (ns = OrderStatus.completed ∨ ns = OrderStatus.cancelled))) →
      ∃ s', OrderService.updateOrderStatus s oid ns uid =
          (s', .ok { order with status := ns }) ∧
        Order.findById s' oid = some { order with status := ns }) ∧
    (¬ ((order.status = OrderStatus.pending ∧
        (ns = OrderStatus.processing ∨ ns = OrderStatus.cancelled)) ∨
      (order.status = OrderStatus.processing ∧
        (ns = OrderStatus.completed ∨ ns = OrderStatus.cancelled))) →
      OrderService.updateOrderStatus s oid ns uid =
        (s, .error (ApiErr.badRequest "Tidak bisa mengubah status"))) := by
  constructor
  · intro hedge
    exact updateOrderStatus_valid uid hfind ((contains_validTransitions _ _).mpr hedge)
      hWF.1 hWF.2.1 (hWF.2.2.1 order (List.mem_of_find?_eq_some hfind))
  · intro hne
    have htab : (OrderService.validTransitions order.status).contains ns = false := by
      rcases Bool.eq_false_or_eq_true
          ((OrderService.validTransitions order.status).contains ns) with h | h
      · exact absurd ((contains_validTransitions _ _).mp h) hne
      · exact h
    exact updateOrderStatus_invalid uid hfind htab

/-- C7 witness: the pending fixture order, with the transition-table theorem
applied to the pending→processing edge. -/
theorem C7_witness :
    Order.findById exS1 1 = some exOrder ∧ WF exS1 ∧
    (((exOrder.status = OrderStatus.pending ∧
        (OrderStatus.processing = OrderStatus.processing ∨
         OrderStatus.processing = OrderStatus.cancelled)) ∨
      (exOrder.status = OrderStatus.processing ∧
        (OrderStatus.processing = OrderStatus.completed ∨
         OrderStatus.processing = OrderStatus.cancelled))) →
      ∃ s', OrderService.updateOrderStatus exS1 1 OrderStatus.processing 4 =
          (s', .ok { exOrder with status := OrderStatus.processing }) ∧
        Order.findById s' 1 = some { exOrder with status := OrderStatus.processing }) ∧
    (¬ ((exOrder.status = OrderStatus.pending ∧
        (OrderStatus.processing = OrderStatus.processing ∨
         OrderStatus.processing = OrderStatus.cancelled)) ∨
      (exOrder.status = OrderStatus.processing ∧
        (OrderStatus.processing = OrderStatus.completed ∨
         OrderStatus.processing = OrderStatus.cancelled))) →
      OrderService.updateOrderStatus exS1 1 OrderStatus.processing 4 =
        (exS1, .error (ApiErr.badRequest "Tidak bisa mengubah status"))) := by
  have hfind : Order.findById exS1 1 = some exOrder := by decide
  have hWF : WF exS1 := ⟨by decide, by decide, by decide, by decide⟩
  have hres := @C7_transition_table exS1 1 OrderStatus.processing 4 exOrder hfind hWF
  exact ⟨hfind, hWF, hres.1, hres.2⟩

end PoS
